import Mathlib

/-!
Shallow embedding of the cell-classification and unit-conversion core of
`src/sheet.py` (balance-sheet converter).

Modelling conventions:
* Python cell values are modelled by `PyVal`: strings, ints, floats, `None`
  and a constructor `obj` for any other Python object (datetimes etc.).
* Python floats are modelled by exact decimal numbers `Dec` (mantissa and
  power-of-ten exponent).  All float values produced by this program are
  decimal: they arise by parsing decimal literals with at most two fraction
  digits and dividing by the conversion factors 100, 1000, 100000, 10000000,
  which are all powers of ten.  Float-special values (NaN, infinities) and
  binary rounding artefacts are outside the model.
* `round(x, 2)` is modelled as round-half-to-even at two decimal places
  (`decRound2`), `str(float)` as the shortest decimal representation
  (`pyFloatStr`), `str(int)` as plain decimal digits, both matching CPython
  on the decimal values that occur here.
* Python regexes used by the source are compiled by hand to executable
  matchers over `List Char`; `re.search` is existence of a match at some
  position, `re.match`/anchored patterns match at the start.  `\d`, `[A-Z]`
  etc. are read as their ASCII classes; the possibility that `$` also
  matches just before a trailing newline is not modelled.
* The optional Gemini fallback (`api_key`) is modelled as absent
  (`api_key=None`): it is an external collaborator, and every claim treated
  here concerns the regex path (spec §4.2 calls the fallback strictly
  additive).
-/

set_option maxRecDepth 100000
set_option linter.unusedVariables false

namespace BalanceSheet

/-! ## Exact decimal numbers (the model of Python floats in this program) -/

/-- A decimal number `mant / 10 ^ exp`.  Models the Python floats occurring
in `sheet.py`, all of which are exact decimals. -/
structure Dec where
  mant : Int
  exp : Nat
deriving DecidableEq

/-- Rational value of a `Dec`; used only in theorem statements. -/
def Dec.toRat (d : Dec) : ℚ := (d.mant : ℚ) / (10 : ℚ) ^ d.exp

/-- Value comparison `a < b` on decimals, by cross multiplication. -/
def decLt (a b : Dec) : Bool :=
  decide (a.mant * (10 : Int) ^ b.exp < b.mant * (10 : Int) ^ a.exp)

/-- Python `abs(a) > t` for decimals (`a` is the value, `t` the threshold). -/
def decGtAbs (a t : Dec) : Bool :=
  decide (t.mant * (10 : Int) ^ a.exp < (a.mant.natAbs : Int) * (10 : Int) ^ t.exp)

/-- Python `abs(a) > abs(b)` for decimals. -/
def decAbsGtAbs (a b : Dec) : Bool :=
  decide ((b.mant.natAbs : Int) * (10 : Int) ^ a.exp < (a.mant.natAbs : Int) * (10 : Int) ^ b.exp)

/-- Python `abs(a) < b` for decimals. -/
def decAbsLt (a b : Dec) : Bool :=
  decide ((a.mant.natAbs : Int) * (10 : Int) ^ b.exp < b.mant * (10 : Int) ^ a.exp)

/-- Value equality of two decimals, by cross multiplication. -/
def decEqv (a b : Dec) : Bool :=
  decide (a.mant * (10 : Int) ^ b.exp = b.mant * (10 : Int) ^ a.exp)

/-- Python `float.is_integer()`: the decimal is an integer. -/
def decIsInt (d : Dec) : Bool := d.mant.natAbs % 10 ^ d.exp == 0

/-- Python `int(x)` on an exact-integer decimal (truncation; only applied
by the source after `is_integer()` holds). -/
def decIntPart (d : Dec) : Int :=
  if d.mant < 0 then -((d.mant.natAbs / 10 ^ d.exp : Nat) : Int)
  else ((d.mant.natAbs / 10 ^ d.exp : Nat) : Int)

/-- Division of a decimal by `10 ^ k`: models `val / factor` for the
conversion factors 100, 1000, 100000, 10000000 of `sheet.py`. -/
def divPow10 (d : Dec) (k : Nat) : Dec := ⟨d.mant, d.exp + k⟩

/-- Round `n / p` half to even on naturals (`q+1` on high remainders,
`q` on low ones, the even neighbour on ties); helper of `decRound2`. -/
def decRound2Q (n p : Nat) : Nat :=
  if 2 * (n % p) < p then n / p
  else if p < 2 * (n % p) then n / p + 1
  else if (n / p) % 2 = 0 then n / p else n / p + 1

/-- Python `round(x, 2)` (round half to even at two decimal places) on an
exact decimal: exact when at most two fraction digits, else half-even
rounding of the magnitude with the sign reapplied. -/
def decRound2 (d : Dec) : Dec :=
  if d.exp ≤ 2 then ⟨d.mant * 10 ^ (2 - d.exp), 2⟩
  else
    ⟨if d.mant < 0 then -(decRound2Q d.mant.natAbs (10 ^ (d.exp - 2)) : Int)
      else (decRound2Q d.mant.natAbs (10 ^ (d.exp - 2)) : Int), 2⟩

/-- Strip trailing decimal zeros from `(exp, digits)`; helper of
`pyFloatStr` (shortest decimal representation). -/
def stripZeros : Nat → Nat → Nat × Nat
  | 0, n => (0, n)
  | e + 1, n => if n % 10 = 0 then stripZeros e (n / 10) else (e + 1, n)

/-- Render an unsigned decimal `n / 10 ^ e` the way CPython `str` renders
the corresponding float (after zero stripping, with `".0"` for integers). -/
def decStrCore (e n : Nat) : String :=
  if e = 0 then toString n ++ ".0"
  else
    let ds := toString n
    let ds := if ds.length ≤ e then String.mk (List.replicate (e + 1 - ds.length) '0') ++ ds
              else ds
    String.mk (ds.toList.take (ds.length - e) ++ '.' :: ds.toList.drop (ds.length - e))

/-- Python `str(x)` for a float modelled as a `Dec`: shortest decimal form,
e.g. `str(150.0) = "150.0"`, `str(31.03) = "31.03"`, `str(0.0) = "0.0"`. -/
def pyFloatStr (d : Dec) : String :=
  let (e, n) := stripZeros d.exp d.mant.natAbs
  (if d.mant < 0 then "-" else "") ++ decStrCore e n

/-! ## Python values and conversion units -/

/-- A Python cell value: string, int, float, `None`, or any other object. -/
inductive PyVal where
  | str : String → PyVal
  | int : Int → PyVal
  | float : Dec → PyVal
  | pynone : PyVal
  | obj : PyVal
deriving DecidableEq

/-- The conversion units of `sheet.py` (`conversion_factors` dict keys). -/
inductive CUnit where
  | Hundred | Thousand | Lakhs | Crore
deriving DecidableEq

/-- Power-of-ten exponent of the conversion factor:
`{"Hundred": 100, "Thousand": 1000, "Lakhs": 100000, "Crore": 10000000}`. -/
def factorExp : CUnit → Nat
  | CUnit.Hundred => 2
  | CUnit.Thousand => 3
  | CUnit.Lakhs => 5
  | CUnit.Crore => 7

/-- The conversion factor as a rational; used in theorem statements. -/
def factorRat (u : CUnit) : ℚ := (10 : ℚ) ^ factorExp u

/-- Display name of a unit, as interpolated into `f"(in {conversion_unit})"`. -/
def unitName : CUnit → String
  | CUnit.Hundred => "Hundred"
  | CUnit.Thousand => "Thousand"
  | CUnit.Lakhs => "Lakhs"
  | CUnit.Crore => "Crore"

/-- The annotation label `f"(in {conversion_unit})"` of `sheet.py`. -/
def unitLabel (u : CUnit) : String := "(in " ++ unitName u ++ ")"

/-- Numeric payload of a value, `isinstance(val, (int, float))` style. -/
def numDecOf : PyVal → Option Dec
  | PyVal.int n => some ⟨n, 0⟩
  | PyVal.float d => some d
  | _ => Option.none

/-- True exactly on the string constructor (`isinstance(val, str)`). -/
def isStrVal : PyVal → Bool
  | PyVal.str _ => true
  | _ => false

/-- True exactly on int/float (`isinstance(val, (int, float))`). -/
def isNumericVal : PyVal → Bool
  | PyVal.int _ => true
  | PyVal.float _ => true
  | _ => false

/-! ## Character and string utilities (Python semantics, ASCII) -/

/-- Python whitespace characters stripped by `str.strip()` (ASCII part). -/
def isWSChar (c : Char) : Bool :=
  c == ' ' || c == '\t' || c == '\n' || c == '\r' || c == '\x0b' || c == '\x0c'

/-- Python `str.strip()`. -/
def pyStrip (l : List Char) : List Char :=
  ((l.dropWhile isWSChar).reverse.dropWhile isWSChar).reverse

/-- Python `text.lower().strip()` (the `text_lower` of
`is_non_monetary_content`; lowering and stripping commute on whitespace). -/
def pyLowerStrip (l : List Char) : List Char := (pyStrip l).map Char.toLower

/-- Python substring containment `needle in hay`. -/
def containsSub (needle : List Char) : List Char → Bool
  | [] => needle.isEmpty
  | c :: rest => needle.isPrefixOf (c :: rest) || containsSub needle rest

/-- Python `str.split()` (split on whitespace runs, no empty words);
fuelled recursion, fuel bounded by the length. -/
def pySplitAux : Nat → List Char → List (List Char)
  | 0, _ => []
  | f + 1, s =>
    let s1 := s.dropWhile isWSChar
    let w := s1.takeWhile (fun c => !isWSChar c)
    if w.isEmpty then [] else w :: pySplitAux f (s1.drop w.length)

/-- Python `str.split()`. -/
def pySplit (l : List Char) : List (List Char) := pySplitAux (l.length + 1) l

/-- Python `str.isalpha()` for a word (nonempty, all ASCII letters). -/
def isAlphaWord (w : List Char) : Bool := !w.isEmpty && w.all Char.isAlpha

/-- Python `str.isdigit()` for a word (nonempty, all ASCII digits). -/
def isDigitWord (w : List Char) : Bool := !w.isEmpty && w.all Char.isDigit

/-! ## Regex machinery

Continuation-passing matchers over `List Char`.  `p s k` decides whether
some prefix of `s` matches the pattern piece and the continuation `k`
accepts the rest; used for boolean `re.search` / `re.match` semantics. -/

/-- Match one character of a class. -/
def chCl (p : Char → Bool) (s : List Char) (k : List Char → Bool) : Bool :=
  match s with
  | c :: rest => p c && k rest
  | [] => false

/-- Match exactly `n` ASCII digits. -/
def digitsExactly : Nat → List Char → (List Char → Bool) → Bool
  | 0, s, k => k s
  | _ + 1, [], _ => false
  | n + 1, c :: rest, k => c.isDigit && digitsExactly n rest k

/-- Match between `lo` and `hi` ASCII digits (existence semantics). -/
def digitsRange (lo hi : Nat) (s : List Char) (k : List Char → Bool) : Bool :=
  (List.range (hi + 1 - lo)).any fun i => digitsExactly (lo + i) s k

/-- Match exactly `n` ASCII letters (`[A-Z]{n}` under `re.IGNORECASE`). -/
def alphasExactly : Nat → List Char → (List Char → Bool) → Bool
  | 0, s, k => k s
  | _ + 1, [], _ => false
  | n + 1, c :: rest, k => c.isAlpha && alphasExactly n rest k

/-- Optional single character of a class (`X?`, existence semantics). -/
def optCh (p : Char → Bool) (s : List Char) (k : List Char → Bool) : Bool :=
  k s || chCl p s k

/-- Kleene star over a character class (existence semantics). -/
def starCl (p : Char → Bool) : List Char → (List Char → Bool) → Bool
  | [], k => k []
  | c :: rest, k => k (c :: rest) || (p c && starCl p rest k)

/-- Case-insensitive literal (pattern given in lowercase); models literal
pattern text under `re.IGNORECASE`. -/
def litCI : List Char → List Char → (List Char → Bool) → Bool
  | [], s, k => k s
  | c :: pr, x :: xr, k => (x == c || x == c.toUpper) && litCI pr xr k
  | _ :: _, [], _ => false

/-- Alternation of case-insensitive literals. -/
def altLitCI (ws : List (List Char)) (s : List Char) (k : List Char → Bool) : Bool :=
  ws.any fun w => litCI w s k

/-- Python `.`-star followed by a continuation (`.*` never crosses a
newline without `re.DOTALL`). -/
def dotStarThen (k : List Char → Bool) : List Char → Bool
  | [] => k []
  | c :: rest => k (c :: rest) || (!(c == '\n') && dotStarThen k rest)

/-- Boolean `re.search`: the start-anchored matcher `p` succeeds at some
position. -/
def searchAny (p : List Char → Bool) : List Char → Bool
  | [] => p []
  | c :: rest => p (c :: rest) || searchAny p rest

/-! ## The classifier `is_non_monetary_content` (sheet.py lines 25-111) -/

/-- Separator class `[- / .]` of the date patterns. -/
def sepDash (c : Char) : Bool := c == '-' || c == '/' || c == '.'

/-- Separator class `[- ]` of the phone pattern. -/
def sepPhone (c : Char) : Bool := c == '-' || c == ' '

/-- Anchored `^\d{4}$` (bare year, line 40). -/
def patBareYear (l : List Char) : Bool := digitsExactly 4 l (fun r => r.isEmpty)

/-- Anchored `FY\d{4}` (first alternative of line 44, `re.IGNORECASE`). -/
def patFY4 (l : List Char) : Bool :=
  litCI ['f', 'y'] l (fun r => digitsExactly 4 r (fun r2 => r2.isEmpty))

/-- Anchored `\d{4}-\d{2}` (second alternative of line 44). -/
def patD4D2 (l : List Char) : Bool :=
  digitsExactly 4 l (fun r => chCl (fun c => c == '-') r
    (fun r2 => digitsExactly 2 r2 (fun r3 => r3.isEmpty)))

/-- Anchored `^(FY\d{4}|\d{4}-\d{2})$` with `re.IGNORECASE` (line 44). -/
def patFinYear (l : List Char) : Bool := patFY4 l || patD4D2 l

/-- Fractional tail `\.\d{1,2}` followed by end of string; helper of
`simpleNumberPat`. -/
def fracTail (rest : List Char) : Bool :=
  !rest.isEmpty && decide (rest.length ≤ 2) && rest.all Char.isDigit

/-- Tail of the anchored simple-number pattern after the leading digit
group: `(?:,\d{3})*(?:\.\d{1,2})?$`.  Fuelled; each comma group consumes
four characters. -/
def commaGroupsAux : Nat → List Char → Bool
  | _, [] => true
  | _, '.' :: rest => fracTail rest
  | f + 1, ',' :: rest =>
    (rest.takeWhile Char.isDigit).length == 3 && commaGroupsAux f (rest.drop 3)
  | 0, ',' :: _ => false
  | _, _ => false

/-- Core of `^-?\d{1,3}(?:,\d{3})*(?:\.\d{1,2})?$` after an optional sign:
the leading maximal digit run must be the `\d{1,3}` group. -/
def simpleCore (s : List Char) : Bool :=
  let r := s.takeWhile Char.isDigit
  !r.isEmpty && decide (r.length ≤ 3) && commaGroupsAux (s.drop r.length).length (s.drop r.length)

/-- Anchored simple formatted number `^-?\d{1,3}(?:,\d{3})*(?:\.\d{1,2})?$`
(line 49). -/
def simpleNumberPat (l : List Char) : Bool :=
  match l with
  | [] => false
  | c :: rest => if c == '-' then simpleCore rest else simpleCore (c :: rest)

/-- Start-anchored `\d{1,2}\.\d{1,2}\.\d{4}` (lines 51 and 61). -/
def ddmmyyyyAt (s : List Char) : Bool :=
  digitsRange 1 2 s fun r1 => chCl (fun c => c == '.') r1 fun r2 =>
    digitsRange 1 2 r2 fun r3 => chCl (fun c => c == '.') r3 fun r4 =>
      digitsExactly 4 r4 fun _ => true

/-- Start-anchored `\d{1,2}[- / .]\d{1,2}[- / .]\d{2,4}` (line 57). -/
def dateP1At (s : List Char) : Bool :=
  digitsRange 1 2 s fun r1 => chCl sepDash r1 fun r2 =>
    digitsRange 1 2 r2 fun r3 => chCl sepDash r3 fun r4 =>
      digitsRange 2 4 r4 fun _ => true

/-- Start-anchored `\d{4}[- / .]\d{1,2}[- / .]\d{1,2}` (line 58). -/
def dateP2At (s : List Char) : Bool :=
  digitsExactly 4 s fun r1 => chCl sepDash r1 fun r2 =>
    digitsRange 1 2 r2 fun r3 => chCl sepDash r3 fun r4 =>
      digitsRange 1 2 r4 fun _ => true

/-- The twelve month-name abbreviations of the date patterns. -/
def monthLits : List (List Char) :=
  [['j','a','n'], ['f','e','b'], ['m','a','r'], ['a','p','r'], ['m','a','y'],
   ['j','u','n'], ['j','u','l'], ['a','u','g'], ['s','e','p'], ['o','c','t'],
   ['n','o','v'], ['d','e','c']]

/-- Start-anchored `(jan|...|dec)[a-z]* \d{1,2},? \d{4}` (line 59). -/
def dateP3At (s : List Char) : Bool :=
  altLitCI monthLits s fun r1 => starCl Char.isAlpha r1 fun r2 =>
    chCl (fun c => c == ' ') r2 fun r3 => digitsRange 1 2 r3 fun r4 =>
      optCh (fun c => c == ',') r4 fun r5 => chCl (fun c => c == ' ') r5 fun r6 =>
        digitsExactly 4 r6 fun _ => true

/-- Ordinal suffix alternation `(st|nd|rd|th)`. -/
def ordSuffixAlt (s : List Char) (k : List Char → Bool) : Bool :=
  altLitCI [['s','t'], ['n','d'], ['r','d'], ['t','h']] s k

/-- Start-anchored `\d{1,2}(st|nd|rd|th) (jan|...)[a-z]* \d{4}` (line 60). -/
def dateP4At (s : List Char) : Bool :=
  digitsRange 1 2 s fun r1 => ordSuffixAlt r1 fun r2 =>
    chCl (fun c => c == ' ') r2 fun r3 => altLitCI monthLits r3 fun r4 =>
      starCl Char.isAlpha r4 fun r5 => chCl (fun c => c == ' ') r5 fun r6 =>
        digitsExactly 4 r6 fun _ => true

/-- Start-anchored `as at \d{1,2}[- / .]\d{1,2}[- / .]\d{4}` (line 62). -/
def dateP6At (s : List Char) : Bool :=
  litCI ['a','s',' ','a','t',' '] s fun r1 => digitsRange 1 2 r1 fun r2 =>
    chCl sepDash r2 fun r3 => digitsRange 1 2 r3 fun r4 =>
      chCl sepDash r4 fun r5 => digitsExactly 4 r5 fun _ => true

/-- Start-anchored `closing.*\d{4}` (line 63). -/
def dateP7At (s : List Char) : Bool :=
  litCI ['c','l','o','s','i','n','g'] s
    (dotStarThen fun r => digitsExactly 4 r fun _ => true)

/-- The `date_patterns` loop of lines 56-68: `re.search` of any of the
seven patterns, `re.IGNORECASE`. -/
def datePatternsAny (l : List Char) : Bool :=
  searchAny dateP1At l || searchAny dateP2At l || searchAny dateP3At l ||
  searchAny dateP4At l || searchAny ddmmyyyyAt l || searchAny dateP6At l ||
  searchAny dateP7At l

/-- The `date_phrases` list of lines 71-74. -/
def datePhrases : List (List Char) :=
  [['a','s',' ','a','t'], ['a','t'], ['o','n'], ['d','a','t','e'],
   ['y','e','a','r'], ['p','e','r','i','o','d'], ['c','l','o','s','i','n','g'],
   ['o','p','e','n','i','n','g'], ['b','e','g','i','n','n','i','n','g'],
   ['e','n','d'], ['f','i','n','a','n','c','i','a','l',' ','y','e','a','r'],
   ['f','y']]

/-- Lines 76-77: a date phrase occurs in `text_lower` and the text contains
a digit. -/
def datePhraseRule (l : List Char) : Bool :=
  (datePhrases.any fun p => containsSub p (pyLowerStrip l)) && l.any Char.isDigit

/-- Start-anchored CIN pattern `[A-Z]\d{5}[A-Z]{2}\d{4}[A-Z]{3}\d{6}`
(line 81, `re.IGNORECASE`). -/
def cinAt (s : List Char) : Bool :=
  alphasExactly 1 s fun r1 => digitsExactly 5 r1 fun r2 =>
    alphasExactly 2 r2 fun r3 => digitsExactly 4 r3 fun r4 =>
      alphasExactly 3 r4 fun r5 => digitsExactly 6 r5 fun _ => true

/-- Start-anchored DIN-like pattern `[A-Z]{3}\d{5}` (line 82). -/
def dinAt (s : List Char) : Bool :=
  alphasExactly 3 s fun r1 => digitsExactly 5 r1 fun _ => true

/-- Start-anchored phone pattern
`[+]{0,1}\d{2,4}[- ]{0,1}\d{3}[- ]{0,1}\d{3}[- ]{0,1}\d{4}` (line 83). -/
def phoneAt (s : List Char) : Bool :=
  optCh (fun c => c == '+') s fun r1 => digitsRange 2 4 r1 fun r2 =>
    optCh sepPhone r2 fun r3 => digitsExactly 3 r3 fun r4 =>
      optCh sepPhone r4 fun r5 => digitsExactly 3 r5 fun r6 =>
        optCh sepPhone r6 fun r7 => digitsExactly 4 r7 fun _ => true

/-- Anchored `^\d{1,2}(st|nd|rd|th)$` (line 84). -/
def daySuffixFull (l : List Char) : Bool :=
  digitsRange 1 2 l fun r1 => ordSuffixAlt r1 fun r2 => r2.isEmpty

/-- Start-anchored `(mem|firm|reg|id|no)[. ]*\d+` (line 85). -/
def memNoAt (s : List Char) : Bool :=
  altLitCI [['m','e','m'], ['f','i','r','m'], ['r','e','g'], ['i','d'], ['n','o']] s
    fun r1 => starCl (fun c => c == '.' || c == ' ') r1 fun r2 =>
      chCl Char.isDigit r2 fun _ => true

/-- The identifier `patterns` loop of lines 80-90. -/
def idPatternsAny (l : List Char) : Bool :=
  searchAny cinAt l || searchAny dinAt l || searchAny phoneAt l ||
  daySuffixFull l || searchAny memNoAt l

/-- The `days_months` literal list of lines 93-98. -/
def daysMonthsList : List (List Char) :=
  ["monday".toList, "tuesday".toList, "wednesday".toList, "thursday".toList,
   "friday".toList, "saturday".toList, "sunday".toList,
   "january".toList, "february".toList, "march".toList, "april".toList,
   "may".toList, "june".toList, "july".toList, "august".toList,
   "september".toList, "october".toList, "november".toList, "december".toList,
   "jan".toList, "feb".toList, "mar".toList, "apr".toList, "may".toList,
   "jun".toList, "jul".toList, "aug".toList, "sep".toList, "oct".toList,
   "nov".toList, "dec".toList]

/-- Lines 100-101: `text_lower` is literally a weekday or month name. -/
def daysMonthsRule (l : List Char) : Bool :=
  daysMonthsList.any fun w => w == pyLowerStrip l

/-- The `date_related_words` list of line 107. -/
def dateRelatedWords : List (List Char) :=
  ["year".toList, "date".toList, "period".toList, "closing".toList,
   "opening".toList, "as".toList, "at".toList, "on".toList]

/-- Lines 104-109: multi-word text with an alphabetic word, a digit word
and a date-related word. -/
def multiWordDateRule (l : List Char) : Bool :=
  let ws := pySplit (pyLowerStrip l)
  decide (1 < ws.length) && ws.any isAlphaWord && ws.any isDigitWord &&
    ws.any fun w => dateRelatedWords.any fun d => d == w

/-- Line 36: `text_lower.startswith('=')`. -/
def startsWithEq (l : List Char) : Bool :=
  match pyLowerStrip l with
  | c :: _ => c == '='
  | [] => false

/-- The classifier `is_non_monetary_content` of sheet.py lines 25-111,
restricted to the string contents (the non-string and empty cases are
handled in `is_non_monetary_content`).  The rule chain mirrors the
source's sequence of early returns. -/
def is_non_monetary_content_str (l : List Char) : Bool :=
  if pyStrip l = [] then false
  else if startsWithEq l then true
  else if patBareYear l then true
  else if patFinYear l then true
  else if simpleNumberPat l then (if searchAny ddmmyyyyAt l then true else false)
  else if datePatternsAny l then true
  else if datePhraseRule l then true
  else if idPatternsAny l then true
  else if daysMonthsRule l then true
  else if multiWordDateRule l then true
  else false

/-- `is_non_monetary_content(text)` of sheet.py lines 25-111: non-strings
and empty/whitespace-only strings yield `False` (line 30), otherwise the
rule chain decides. -/
def is_non_monetary_content : PyVal → Bool
  | PyVal.str s => is_non_monetary_content_str s.toList
  | _ => false

/-! ## Number extraction

`re.findall(r'-?\d{1,3}(?:,\d{3})*(?:\.\d{1,2})?', val.replace(',', ''))`
(sheet.py lines 181 and 261).  The scan is left to right; at each position
the pattern matches greedily (up to three digits, comma groups — vacuous on
the comma-stripped input — and an optional fraction of up to two digits);
on a match the scan resumes after it, otherwise it advances one character. -/

/-- Greedily consume `(?:,\d{3})*` comma groups; returns the consumed
characters and the rest.  Fuelled; each group consumes four characters. -/
def commaGroupsScan : Nat → List Char → List Char × List Char
  | 0, s => ([], s)
  | _ + 1, [] => ([], [])
  | f + 1, c :: rest =>
    if c == ',' then
      if ((rest.takeWhile Char.isDigit).take 3).length == 3 then
        let cg := commaGroupsScan f (rest.drop 3)
        (c :: (((rest.takeWhile Char.isDigit).take 3) ++ cg.1), cg.2)
      else ([], c :: rest)
    else ([], c :: rest)

/-- Greedily consume the optional fraction `(?:\.\d{1,2})?`. -/
def fracScan : List Char → List Char × List Char
  | [] => ([], [])
  | c :: rest =>
    if c == '.' then
      if ((rest.takeWhile Char.isDigit).take 2).isEmpty then ([], c :: rest)
      else (c :: (rest.takeWhile Char.isDigit).take 2,
        rest.drop ((rest.takeWhile Char.isDigit).take 2).length)
    else ([], c :: rest)

/-- Greedy match of the unsigned number pattern at the current position:
`\d{1,3}(?:,\d{3})*(?:\.\d{1,2})?`. -/
def scanUnsigned (s : List Char) : Option (List Char × List Char) :=
  if ((s.takeWhile Char.isDigit).take 3).isEmpty then Option.none
  else
    let d1 := (s.takeWhile Char.isDigit).take 3
    let cg := commaGroupsScan (s.drop d1.length).length (s.drop d1.length)
    let fs := fracScan cg.2
    some (d1 ++ cg.1 ++ fs.1, fs.2)

/-- Greedy match of `-?\d{1,3}(?:,\d{3})*(?:\.\d{1,2})?` at the current
position. -/
def scanTokenAt (s : List Char) : Option (List Char × List Char) :=
  match s with
  | [] => Option.none
  | c :: rest =>
    if c == '-' then
      match scanUnsigned rest with
      | some (tok, r) => some ('-' :: tok, r)
      | Option.none => Option.none
    else scanUnsigned (c :: rest)

/-- The `re.findall` scan; fuelled, each step consumes at least one
character. -/
def findallAux : Nat → List Char → List (List Char)
  | 0, _ => []
  | _ + 1, [] => []
  | f + 1, c :: rest =>
    match scanTokenAt (c :: rest) with
    | some (tok, r) => tok :: findallAux f r
    | Option.none => findallAux f rest

/-- All matches of the grouped-number regex, in order of appearance. -/
def find_all_numbers (l : List Char) : List (List Char) := findallAux l.length l

/-- Digit run to a natural number. -/
def natOfDigits (l : List Char) : Nat :=
  l.foldl (fun a c => 10 * a + (c.toNat - 48)) 0

/-- Python `float(tok)` on an unsigned decimal literal (integer part,
optionally a dot and a fraction part); `Option.none` models a
`ValueError`. -/
def pyFloatOfTokenPos (s : List Char) : Option Dec :=
  let ip := s.takeWhile Char.isDigit
  let rest := s.drop ip.length
  if rest.isEmpty then
    if ip.isEmpty then Option.none else some ⟨(natOfDigits ip : Int), 0⟩
  else if rest.take 1 == ['.'] then
    if !(rest.drop 1).isEmpty && (rest.drop 1).all Char.isDigit then
      some ⟨(natOfDigits ip * 10 ^ (rest.drop 1).length
              + natOfDigits (rest.drop 1) : Nat), (rest.drop 1).length⟩
    else Option.none
  else Option.none

/-- Python `float(tok)`, signs included; `Option.none` models a
`ValueError` (models `float(match.replace(',', ''))` of lines 183/263 —
the matches carry no commas because the scanned text is comma stripped). -/
def pyFloatOfToken : List Char → Option Dec
  | [] => Option.none
  | c :: rest =>
    if c == '-' then (pyFloatOfTokenPos rest).map fun d => ⟨-d.mant, d.exp⟩
    else pyFloatOfTokenPos (c :: rest)

/-- The list comprehension `[float(match.replace(',', '')) for match in
num_matches]` with exception propagation: `Option.none` models a raised
`ValueError` (never reached for tokens the scanner produces). -/
def floatListOfTokens : List (List Char) → Option (List Dec)
  | [] => some []
  | t :: ts =>
    match pyFloatOfToken t, floatListOfTokens ts with
    | some d, some ds => some (d :: ds)
    | _, _ => Option.none

/-- The numbers extracted from a string cell: `re.findall` on the
comma-stripped text, each match through `float`. -/
def extract_numbers (s : String) : Option (List Dec) :=
  floatListOfTokens (find_all_numbers (s.toList.filter fun c => !(c == ',')))

/-- The date-disguised-as-numbers guard of lines 186 and 266:
`len(numbers) == 3 and all(0 < num < 32 for num in numbers[:2]) and
numbers[2] > 1900`. -/
def is_date_triple (nums : List Dec) : Bool :=
  nums.length == 3 &&
  ((nums.take 2).all fun x => decLt ⟨0, 0⟩ x && decLt x ⟨32, 0⟩) &&
  decLt ⟨1900, 0⟩ (nums.getD 2 ⟨0, 0⟩)

/-- Python `max(numbers, key=abs)` (first maximum) — line 190/269. -/
def maxByAbs : List Dec → Dec
  | [] => ⟨0, 0⟩
  | x :: xs => xs.foldl (fun m y => if decAbsGtAbs y m then y else m) x

/-! ## The rewrite of string cells -/

/-- Python `str.replace` (left to right, non-overlapping); fuelled, each
step consumes at least one character of the haystack. -/
def pyReplaceAux : Nat → List Char → List Char → List Char → List Char
  | 0, hay, _, _ => hay
  | _ + 1, [], _, _ => []
  | f + 1, c :: rest, pat, repl =>
    if pat.isPrefixOf (c :: rest) && !pat.isEmpty then
      repl ++ pyReplaceAux f ((c :: rest).drop pat.length) pat repl
    else c :: pyReplaceAux f rest pat repl

/-- Python `hay.replace(pat, repl)`. -/
def pyReplace (hay pat repl : List Char) : List Char :=
  pyReplaceAux hay.length hay pat repl

/-- Python `str(converted)` where
`converted = int(num/factor) if (num/factor).is_integer() else
round(num/factor, 2)` (lines 203-208 / 276-281). -/
def str_of_converted (num : Dec) (k : Nat) : String :=
  let c := divPow10 num k
  if decIsInt c then toString (decIntPart c) else pyFloatStr (decRound2 c)

/-- Stable insertion for descending sort by `len(str(num))`. -/
def insertByLenDesc (x : Dec) : List Dec → List Dec
  | [] => [x]
  | y :: ys =>
    if (pyFloatStr y).length < (pyFloatStr x).length then x :: y :: ys
    else y :: insertByLenDesc x ys

/-- Python `sorted(numbers, key=lambda x: len(str(x)), reverse=True)`
(stable descending) — line 201/274. -/
def sortByStrLenDesc (l : List Dec) : List Dec :=
  l.foldl (fun acc x => insertByLenDesc x acc) []

/-- The replacement loop of lines 200-208 / 273-281: for each extracted
number above the threshold, replace `str(num)` by `str(converted)` in the
accumulated string. -/
def replaceConvertedNums (t : Dec) (k : Nat) (orig : List Char) (nums : List Dec) :
    List Char :=
  (sortByStrLenDesc nums).foldl
    (fun acc num =>
      if decGtAbs num t then
        pyReplace acc (pyFloatStr num).toList (str_of_converted num k).toList
      else acc)
    orig

/-! ## The per-cell conversion -/

/-- The numeric branch of lines 170-175 / 252-256: values whose magnitude
exceeds the threshold are divided by the factor, returned as `int` when the
quotient is integral and as `round(•, 2)` otherwise; other values are
returned unchanged. -/
def convert_numeric (orig : PyVal) (d : Dec) (k : Nat) (t : Dec) : PyVal :=
  if decGtAbs d t then
    let c := divPow10 d k
    if decIsInt c then PyVal.int (decIntPart c) else PyVal.float (decRound2 c)
  else orig

/-- The body of the `try:` block shared by `process_cell_batch`
(lines 163-229) and `convert_units_in_cell` (lines 246-285), with
`api_key=None` (the two bodies coincide then: the Gemini branch of
lines 213-227 degenerates to returning the value).  `Option.none` models an
exception escaping the body, to be caught by the `except` wrapper. -/
def cell_try (v : PyVal) (u : CUnit) (t : Dec) : Option PyVal :=
  match v with
  | PyVal.str s =>
    if is_non_monetary_content_str s.toList then some (PyVal.str s)
    else
      let tokens := find_all_numbers (s.toList.filter fun c => !(c == ','))
      if tokens.isEmpty then some (PyVal.str s)
      else
        match floatListOfTokens tokens with
        | Option.none => Option.none
        | some nums =>
          if is_date_triple nums then some (PyVal.str s)
          else
            let largest := maxByAbs nums
            if decGtAbs largest t then
              some (PyVal.str (String.mk
                (replaceConvertedNums t (factorExp u) s.toList nums)))
            else some (PyVal.str s)
  | PyVal.int n => some (convert_numeric (PyVal.int n) ⟨n, 0⟩ (factorExp u) t)
  | PyVal.float d => some (convert_numeric (PyVal.float d) d (factorExp u) t)
  | PyVal.pynone => some v
  | PyVal.obj => some v

/-- `convert_units_in_cell(val, conversion_unit, threshold)` of sheet.py
lines 236-287: the `try:` body with the `except` returning the original
value. -/
def convert_units_in_cell (v : PyVal) (u : CUnit) (t : Dec) : PyVal :=
  match cell_try v u t with
  | some r => r
  | Option.none => v

/-- One iteration of the loop body of `process_cell_batch` (lines 162-232):
the `try:` body with the `except` appending the original value. -/
def process_cell (v : PyVal) (u : CUnit) (t : Dec) : PyVal :=
  (cell_try v u t).getD v

/-- `process_cell_batch(cell_values, conversion_unit, threshold)` of
sheet.py lines 151-234 with `api_key=None`: the per-cell loop. -/
def process_cell_batch : List PyVal → CUnit → Dec → List PyVal
  | [], _, _ => []
  | v :: rest, u, t =>
    (match cell_try v u t with
     | some r => r
     | Option.none => v) :: process_cell_batch rest u t

/-! ## The table annotators -/

/-- The per-value test of `add_unit_row` (line 296):
`isinstance(val, (int, float)) and abs(val) < 1000 and val == round(val, 2)`. -/
def looksConverted : PyVal → Bool
  | PyVal.int n => decAbsLt ⟨n, 0⟩ ⟨1000, 0⟩
  | PyVal.float d => decAbsLt d ⟨1000, 0⟩ && decEqv d (decRound2 d)
  | _ => false

/-- The label `add_unit_row` (sheet.py lines 289-303) computes for one
column: `"(in <unit>)"` when the first ten non-null values contain one that
`looksConverted`, else the empty label.  (`head(10).dropna()`; the model
has no NaN, so dropping nulls drops `pynone`.) -/
def add_unit_row_label (col : List PyVal) (u : CUnit) : String :=
  if ((col.take 10).filter fun v => !(v == PyVal.pynone)).any looksConverted
  then unitLabel u else ""

/-- The unit row `add_unit_row` prepends: one label per column. -/
def add_unit_row (cols : List (List PyVal)) (u : CUnit) : List String :=
  cols.map fun col => add_unit_row_label col u

/-- The label the Excel path computes for one column (sheet.py lines
374-380): `"(in <unit>)"` when any of rows 2..min(max_row, 99) holds an
int/float value, else the empty label.  The column is given as the list of
post-processing cell values of rows 1.. (None cells as `pynone`). -/
def create_preserve_excel_label (col : List PyVal) (u : CUnit) : String :=
  if ((col.drop 1).take 98).any isNumericVal then unitLabel u else ""

/-- The per-cell effect of `create_preserve_excel` (sheet.py lines
350-371) on a cell of the formula workbook: cells whose `cell.value` is
`None` are skipped (left as they are); otherwise the value sent to
`process_cell_batch` is the data workbook's computed value when that is not
`None`, else the formula workbook's value, and the processed result is
written back over `cell.value`. -/
def create_preserve_excel_cell (cellVal dataVal : Option PyVal) (u : CUnit) (t : Dec) :
    Option PyVal :=
  match cellVal with
  | Option.none => Option.none
  | some cv => some (process_cell (dataVal.getD cv) u t)

/-! ## Specification-level definitions (rational semantics)

These definitions follow the wording of the specification and are used in
theorem statements only; they are compared there with the executable
definitions above, which are translated from the source. -/

/-- Round half to even on a nonnegative rational (specification wording of
Python `round`). -/
def roundHalfEvenNN (x : ℚ) : ℤ :=
  if x - ⌊x⌋ < 1 / 2 then ⌊x⌋
  else if (1 : ℚ) / 2 < x - ⌊x⌋ then ⌊x⌋ + 1
  else if Even ⌊x⌋ then ⌊x⌋ else ⌊x⌋ + 1

/-- Round half to even on a rational (specification wording of Python
`round`, sign symmetric). -/
def roundHalfEven (x : ℚ) : ℤ :=
  if x < 0 then -roundHalfEvenNN (-x) else roundHalfEvenNN x

/-- Rational value of a numeric `PyVal` (0 for non-numeric values; always
guarded by `isNumericVal` where used). -/
def decValRat (v : PyVal) : ℚ :=
  match numDecOf v with
  | some d => d.toRat
  | Option.none => 0

/-- Claim-side pattern `FY\d{2}-\d{2}` (anchored, case insensitive), from
the financial-year pattern list quoted by the specification. -/
def patFY2D2 (l : List Char) : Bool :=
  match l with
  | [f, y, a, b, h, c, d] =>
    (f == 'F' || f == 'f') && (y == 'Y' || y == 'y') &&
    a.isDigit && b.isDigit && (h == '-') && c.isDigit && d.isDigit
  | _ => false

/-- Claim-side pattern `\d{4}-\d{4}` (anchored), from the financial-year
pattern list quoted by the specification. -/
def patD4D4 (l : List Char) : Bool :=
  digitsExactly 4 l fun r => chCl (fun c => c == '-') r fun r2 =>
    digitsExactly 4 r2 fun r3 => r3.isEmpty

/-! ## Bridging lemmas: decimal arithmetic against rational semantics -/

theorem pow10_pos_rat (e : Nat) : (0 : ℚ) < 10 ^ e := by positivity

theorem int_lt_iff_cast_rat (x y : ℤ) : x < y ↔ (x : ℚ) < (y : ℚ) := Int.cast_lt.symm

theorem int_eq_iff_cast_rat (x y : ℤ) : x = y ↔ (x : ℚ) = (y : ℚ) := by
  exact_mod_cast Iff.rfl

theorem abs_toRat (d : Dec) : |d.toRat| = (d.mant.natAbs : ℚ) / 10 ^ d.exp := by
  rw [Dec.toRat, abs_div, Int.cast_natAbs, abs_pow]
  norm_num

theorem decGtAbs_iff (a t : Dec) : decGtAbs a t = true ↔ t.toRat < |a.toRat| := by
  rw [decGtAbs, decide_eq_true_iff, int_lt_iff_cast_rat, abs_toRat, Dec.toRat,
    div_lt_div_iff₀ (pow10_pos_rat _) (pow10_pos_rat _)]
  push_cast
  rw [Int.cast_natAbs, Int.cast_abs]

theorem decAbsLt_iff (a b : Dec) : decAbsLt a b = true ↔ |a.toRat| < b.toRat := by
  rw [decAbsLt, decide_eq_true_iff, int_lt_iff_cast_rat, abs_toRat, Dec.toRat,
    div_lt_div_iff₀ (pow10_pos_rat _) (pow10_pos_rat _)]
  push_cast
  rw [Int.cast_natAbs, Int.cast_abs]

theorem decEqv_iff (a b : Dec) : decEqv a b = true ↔ a.toRat = b.toRat := by
  rw [decEqv, decide_eq_true_iff, int_eq_iff_cast_rat, Dec.toRat, Dec.toRat,
    div_eq_div_iff (ne_of_gt (pow10_pos_rat _)) (ne_of_gt (pow10_pos_rat _))]
  push_cast
  exact Iff.rfl

theorem natAbs_pow10_dvd_of_mod (d : Dec) (h : d.mant.natAbs % 10 ^ d.exp = 0) :
    ((10 : ℤ)) ^ d.exp ∣ d.mant := by
  have hd : (10 : ℕ) ^ d.exp ∣ d.mant.natAbs := Nat.dvd_iff_mod_eq_zero.mpr h
  refine Int.natAbs_dvd_natAbs.mp ?_
  simpa [Int.natAbs_pow] using hd

theorem decIsInt_iff (d : Dec) : decIsInt d = true ↔ ∃ z : ℤ, d.toRat = (z : ℚ) := by
  rw [decIsInt, beq_iff_eq]
  constructor
  · intro h
    obtain ⟨z, hz⟩ := natAbs_pow10_dvd_of_mod d h
    refine ⟨z, ?_⟩
    rw [Dec.toRat, hz, div_eq_iff (ne_of_gt (pow10_pos_rat _))]
    push_cast
    ring
  · rintro ⟨z, hz⟩
    rw [Dec.toRat, div_eq_iff (ne_of_gt (pow10_pos_rat _))] at hz
    have hz2 : d.mant = z * 10 ^ d.exp := by exact_mod_cast hz
    have hd2 : ((10 : ℤ)) ^ d.exp ∣ d.mant := Dvd.intro_left z hz2.symm
    have hd : (10 : ℕ) ^ d.exp ∣ d.mant.natAbs := by
      have h3 := Int.natAbs_dvd_natAbs.mpr hd2
      simpa [Int.natAbs_pow] using h3
    exact Nat.dvd_iff_mod_eq_zero.mp hd

theorem decIntPart_mul (d : Dec) (h : decIsInt d = true) :
    decIntPart d * 10 ^ d.exp = d.mant := by
  rw [decIsInt, beq_iff_eq] at h
  have hd : (10 : ℕ) ^ d.exp ∣ d.mant.natAbs := Nat.dvd_iff_mod_eq_zero.mpr h
  have hmul : (d.mant.natAbs / 10 ^ d.exp) * 10 ^ d.exp = d.mant.natAbs :=
    Nat.div_mul_cancel hd
  rw [decIntPart]
  by_cases hneg : d.mant < 0
  · rw [if_pos hneg]
    have habs : ((d.mant.natAbs : ℤ)) = -d.mant := Int.ofNat_natAbs_of_nonpos (le_of_lt hneg)
    have hcast : ((d.mant.natAbs / 10 ^ d.exp : ℕ) : ℤ) * ((10 : ℤ)) ^ d.exp
        = ((d.mant.natAbs : ℤ)) := by
      exact_mod_cast congrArg (fun n : ℕ => (n : ℤ)) hmul
    rw [neg_mul, hcast, habs, neg_neg]
  · rw [if_neg hneg]
    have habs : ((d.mant.natAbs : ℤ)) = d.mant := Int.natAbs_of_nonneg (not_lt.mp hneg)
    have hcast : ((d.mant.natAbs / 10 ^ d.exp : ℕ) : ℤ) * ((10 : ℤ)) ^ d.exp
        = ((d.mant.natAbs : ℤ)) := by
      exact_mod_cast congrArg (fun n : ℕ => (n : ℤ)) hmul
    rw [hcast, habs]

theorem decIntPart_toRat (d : Dec) (h : decIsInt d = true) :
    ((decIntPart d : ℤ) : ℚ) = d.toRat := by
  rw [Dec.toRat, eq_div_iff (ne_of_gt (pow10_pos_rat _))]
  exact_mod_cast congrArg (fun z : ℤ => (z : ℚ)) (decIntPart_mul d h)

theorem divPow10_toRat (d : Dec) (k : Nat) :
    (divPow10 d k).toRat = d.toRat / 10 ^ k := by
  rw [divPow10, Dec.toRat, Dec.toRat]
  simp only [pow_add]
  rw [div_div]

theorem roundHalfEvenNN_intCast (z : ℤ) : roundHalfEvenNN ((z : ℚ)) = z := by
  rw [roundHalfEvenNN, Int.floor_intCast]
  rw [if_pos]
  rw [sub_self]
  norm_num

theorem roundHalfEven_intCast (z : ℤ) : roundHalfEven ((z : ℚ)) = z := by
  rw [roundHalfEven]
  by_cases h : ((z : ℚ)) < 0
  · rw [if_pos h]
    have hzc : ((-z : ℤ) : ℚ) = -((z : ℚ)) := by push_cast; ring
    rw [← hzc, roundHalfEvenNN_intCast, neg_neg]
  · rw [if_neg h, roundHalfEvenNN_intCast]

theorem floor_natCast_div (n p : ℕ) (hp : 0 < p) :
    ⌊(n : ℚ) / p⌋ = ((n / p : ℕ) : ℤ) := by
  have hp' : (0 : ℚ) < p := by exact_mod_cast hp
  refine Int.floor_eq_iff.mpr ⟨?_, ?_⟩
  · rw [Int.cast_natCast, le_div_iff₀ hp']
    exact_mod_cast Nat.div_mul_le_self n p
  · rw [Int.cast_natCast, div_lt_iff₀ hp']
    have hmlt : n % p < p := Nat.mod_lt n hp
    have hstep : n < (n / p + 1) * p := by
      calc n = p * (n / p) + n % p := (Nat.div_add_mod n p).symm
        _ < p * (n / p) + p := by omega
        _ = (n / p + 1) * p := by ring
    exact_mod_cast hstep

theorem roundHalfEvenNN_natDiv (n p : ℕ) (hp : 0 < p) :
    roundHalfEvenNN ((n : ℚ) / p) = ((decRound2Q n p : ℕ) : ℤ) := by
  have hp' : (0 : ℚ) < p := by exact_mod_cast hp
  have hqr := Nat.div_add_mod n p
  have hfrac : (n : ℚ) / p - ((n / p : ℕ) : ℚ) = ((n % p : ℕ) : ℚ) / p := by
    rw [eq_div_iff (ne_of_gt hp'), sub_mul, div_mul_cancel₀ _ (ne_of_gt hp')]
    have hc : ((p * (n / p) + n % p : ℕ) : ℚ) = ((n : ℕ) : ℚ) := by
      exact_mod_cast congrArg (fun k : ℕ => ((k : ℚ))) hqr
    push_cast at hc
    linarith
  have hlt : (((n % p : ℕ) : ℚ) / p < 1 / 2) ↔ (2 * (n % p) < p) := by
    rw [div_lt_div_iff₀ hp' (by norm_num : (0 : ℚ) < 2),
      show ((n % p : ℕ) : ℚ) * 2 = ((2 * (n % p) : ℕ) : ℚ) by push_cast; ring,
      show (1 : ℚ) * p = ((p : ℕ) : ℚ) by norm_num]
    exact Nat.cast_lt
  have hgt : ((1 : ℚ) / 2 < ((n % p : ℕ) : ℚ) / p) ↔ (p < 2 * (n % p)) := by
    rw [div_lt_div_iff₀ (by norm_num : (0 : ℚ) < 2) hp',
      show ((n % p : ℕ) : ℚ) * 2 = ((2 * (n % p) : ℕ) : ℚ) by push_cast; ring,
      show (1 : ℚ) * p = ((p : ℕ) : ℚ) by norm_num]
    exact Nat.cast_lt
  have heven : Even ((( n / p : ℕ) : ℤ)) ↔ (n / p) % 2 = 0 := by
    rw [Int.even_coe_nat, Nat.even_iff]
  rw [roundHalfEvenNN, decRound2Q, floor_natCast_div n p hp, Int.cast_natCast, hfrac]
  by_cases c1 : 2 * (n % p) < p
  · rw [if_pos (hlt.mpr c1), if_pos c1]
  · rw [if_neg (fun hh => c1 (hlt.mp hh)), if_neg c1]
    by_cases c2 : p < 2 * (n % p)
    · rw [if_pos (hgt.mpr c2), if_pos c2]
      push_cast
      ring
    · rw [if_neg (fun hh => c2 (hgt.mp hh)), if_neg c2]
      by_cases c3 : (n / p) % 2 = 0
      · rw [if_pos (heven.mpr c3), if_pos c3]
      · rw [if_neg (fun hh => c3 (heven.mp hh)), if_neg c3]
        push_cast
        ring

theorem decRound2_toRat (d : Dec) :
    (decRound2 d).toRat = ((roundHalfEven (d.toRat * 100) : ℤ) : ℚ) / 100 := by
  rw [decRound2]
  by_cases h2 : d.exp ≤ 2
  · rw [if_pos h2]
    have hx : d.toRat * 100 = ((d.mant * 10 ^ (2 - d.exp) : ℤ) : ℚ) := by
      rw [Dec.toRat, div_mul_eq_mul_div, div_eq_iff (ne_of_gt (pow10_pos_rat _))]
      push_cast
      rw [mul_assoc,
        show ((10 : ℚ)) ^ (2 - d.exp) * 10 ^ d.exp = 100 by
          rw [← pow_add, show 2 - d.exp + d.exp = 2 by omega]; norm_num,
        show ((100 : ℚ)) = 10 ^ 2 by norm_num]
    rw [hx, roundHalfEven_intCast, Dec.toRat]
    push_cast
    norm_num
  · rw [if_neg h2]
    have hP : 0 < 10 ^ (d.exp - 2) := Nat.pos_pow_of_pos _ (by norm_num)
    have hP' : (0 : ℚ) < ((10 ^ (d.exp - 2) : ℕ) : ℚ) := by exact_mod_cast hP
    have hx : d.toRat * 100 = (d.mant : ℚ) / ((10 ^ (d.exp - 2) : ℕ) : ℚ) := by
      rw [Dec.toRat, div_mul_eq_mul_div,
        div_eq_div_iff (ne_of_gt (pow10_pos_rat _)) (ne_of_gt hP')]
      push_cast
      rw [mul_comm ((d.mant : ℚ)) ((10 : ℚ) ^ d.exp),
        show ((10 : ℚ)) ^ d.exp = 10 ^ (d.exp - 2) * 10 ^ 2 by
          rw [← pow_add, show d.exp - 2 + 2 = d.exp by omega]]
      ring
    by_cases hneg : d.mant < 0
    · have hnq : ((d.mant.natAbs : ℚ)) = -((d.mant : ℚ)) := by
        rw [Int.cast_natAbs, Int.cast_abs,
          abs_of_neg (show ((d.mant : ℚ)) < 0 by exact_mod_cast hneg)]
      have hnpos : 0 < d.mant.natAbs := Int.natAbs_pos.mpr (ne_of_lt hneg)
      have hxneg : d.toRat * 100
          = -((d.mant.natAbs : ℚ) / ((10 ^ (d.exp - 2) : ℕ) : ℚ)) := by
        rw [hx, ← neg_div, show ((d.mant : ℚ)) = -((d.mant.natAbs : ℚ)) by linarith]
      have hlt0 : d.toRat * 100 < 0 := by
        rw [hxneg]
        have hq : 0 < (d.mant.natAbs : ℚ) / ((10 ^ (d.exp - 2) : ℕ) : ℚ) :=
          div_pos (by exact_mod_cast hnpos) hP'
        linarith
      rw [roundHalfEven, if_pos hlt0, hxneg, neg_neg, roundHalfEvenNN_natDiv _ _ hP]
      rw [if_pos hneg, Dec.toRat]
      push_cast
      norm_num
    · have hnq : ((d.mant.natAbs : ℚ)) = ((d.mant : ℚ)) := by
        rw [Int.cast_natAbs, Int.cast_abs,
          abs_of_nonneg (show (0 : ℚ) ≤ ((d.mant : ℚ)) by exact_mod_cast not_lt.mp hneg)]
      have hxpos : d.toRat * 100
          = (d.mant.natAbs : ℚ) / ((10 ^ (d.exp - 2) : ℕ) : ℚ) := by
        rw [hx, hnq]
      have hge0 : ¬ d.toRat * 100 < 0 := by
        rw [hxpos]
        have hq : 0 ≤ (d.mant.natAbs : ℚ) / ((10 ^ (d.exp - 2) : ℕ) : ℚ) :=
          div_nonneg (by positivity) (le_of_lt hP')
        linarith
      rw [roundHalfEven, if_neg hge0, hxpos, roundHalfEvenNN_natDiv _ _ hP]
      rw [if_neg hneg, Dec.toRat]
      push_cast
      norm_num


/-! ## The numeric conversion branch against its specification -/

theorem convert_numeric_below (orig : PyVal) (m t : Dec) (k : Nat)
    (h : |m.toRat| ≤ t.toRat) : convert_numeric orig m k t = orig := by
  have hb : decGtAbs m t = false := by
    rw [Bool.eq_false_iff]
    intro hc
    exact absurd ((decGtAbs_iff m t).mp hc) (not_lt.mpr h)
  simp [convert_numeric, hb]

theorem convert_numeric_to_int (orig : PyVal) (m t : Dec) (k : Nat) (z : ℤ)
    (h : t.toRat < |m.toRat|) (hz : m.toRat / 10 ^ k = (z : ℚ)) :
    convert_numeric orig m k t = PyVal.int z := by
  have hb : decGtAbs m t = true := (decGtAbs_iff m t).mpr h
  have hct : (divPow10 m k).toRat = (z : ℚ) := by rw [divPow10_toRat]; exact hz
  have hint : decIsInt (divPow10 m k) = true := (decIsInt_iff _).mpr ⟨z, hct⟩
  have hip : decIntPart (divPow10 m k) = z := by
    have h2 := decIntPart_toRat _ hint
    rw [hct] at h2
    exact_mod_cast h2
  simp [convert_numeric, hb, hint, hip]

theorem convert_numeric_to_round (orig : PyVal) (m t : Dec) (k : Nat)
    (h : t.toRat < |m.toRat|) (hnz : ∀ z : ℤ, m.toRat / 10 ^ k ≠ (z : ℚ)) :
    convert_numeric orig m k t = PyVal.float (decRound2 (divPow10 m k)) ∧
      (decRound2 (divPow10 m k)).toRat
        = ((roundHalfEven (m.toRat / 10 ^ k * 100) : ℤ) : ℚ) / 100 := by
  have hb : decGtAbs m t = true := (decGtAbs_iff m t).mpr h
  have hint : decIsInt (divPow10 m k) = false := by
    rw [Bool.eq_false_iff]
    intro hc
    obtain ⟨z, hz⟩ := (decIsInt_iff _).mp hc
    rw [divPow10_toRat] at hz
    exact hnz z hz
  constructor
  · simp [convert_numeric, hb, hint]
  · rw [decRound2_toRat, divPow10_toRat]

theorem convert_units_in_cell_int (n : Int) (u : CUnit) (t : Dec) :
    convert_units_in_cell (PyVal.int n) u t
      = convert_numeric (PyVal.int n) ⟨n, 0⟩ (factorExp u) t := rfl

theorem convert_units_in_cell_float (d : Dec) (u : CUnit) (t : Dec) :
    convert_units_in_cell (PyVal.float d) u t
      = convert_numeric (PyVal.float d) d (factorExp u) t := rfl

theorem process_cell_int (n : Int) (u : CUnit) (t : Dec) :
    process_cell (PyVal.int n) u t
      = convert_numeric (PyVal.int n) ⟨n, 0⟩ (factorExp u) t := rfl

theorem process_cell_float (d : Dec) (u : CUnit) (t : Dec) :
    process_cell (PyVal.float d) u t
      = convert_numeric (PyVal.float d) d (factorExp u) t := rfl

/-- C1: for every numeric cell value `m` and threshold `t`, both conversion
operations (`convert_units_in_cell` and the numeric branch of
`process_cell_batch`) return `m` unchanged when `abs(m) <= t`; when
`abs(m) > t` they return `m` divided by the unit factor, as a Python int
when the quotient is mathematically integral and otherwise as a float
rounded (half to even) to two decimal places. -/
theorem c1_converter_contract (v : PyVal) (m t : Dec) (u : CUnit)
    (hv : numDecOf v = some m) :
    (|m.toRat| ≤ t.toRat →
      convert_units_in_cell v u t = v ∧ process_cell v u t = v) ∧
    (t.toRat < |m.toRat| →
      ((∃ z : ℤ, m.toRat / factorRat u = (z : ℚ)) →
        ∃ z : ℤ, m.toRat / factorRat u = (z : ℚ) ∧
          convert_units_in_cell v u t = PyVal.int z ∧
          process_cell v u t = PyVal.int z) ∧
      ((∀ z : ℤ, m.toRat / factorRat u ≠ (z : ℚ)) →
        ∃ r : Dec, r.toRat = ((roundHalfEven (m.toRat / factorRat u * 100) : ℤ) : ℚ) / 100 ∧
          convert_units_in_cell v u t = PyVal.float r ∧
          process_cell v u t = PyVal.float r)) := by
  have hfac : factorRat u = (10 : ℚ) ^ factorExp u := rfl
  cases v with
  | str s => simp [numDecOf] at hv
  | pynone => simp [numDecOf] at hv
  | obj => simp [numDecOf] at hv
  | int n =>
    have hm : m = ⟨n, 0⟩ := by simpa [numDecOf] using hv.symm
    subst hm
    refine ⟨fun h => ?_, fun h => ⟨fun hz => ?_, fun hnz => ?_⟩⟩
    · rw [convert_units_in_cell_int, process_cell_int,
        convert_numeric_below _ _ _ _ h]
      exact ⟨rfl, rfl⟩
    · obtain ⟨z, hz⟩ := hz
      rw [hfac] at hz
      refine ⟨z, by rw [hfac]; exact hz, ?_, ?_⟩
      · rw [convert_units_in_cell_int]
        exact convert_numeric_to_int _ _ _ _ z h hz
      · rw [process_cell_int]
        exact convert_numeric_to_int _ _ _ _ z h hz
    · rw [hfac] at hnz
      obtain ⟨heq, hrat⟩ := convert_numeric_to_round (PyVal.int n) ⟨n, 0⟩ t (factorExp u) h hnz
      refine ⟨decRound2 (divPow10 ⟨n, 0⟩ (factorExp u)), ?_, ?_, ?_⟩
      · rw [hrat, hfac]
      · rw [convert_units_in_cell_int, heq]
      · rw [process_cell_int, heq]
  | float d =>
    have hm : m = d := by simpa [numDecOf] using hv.symm
    subst hm
    refine ⟨fun h => ?_, fun h => ⟨fun hz => ?_, fun hnz => ?_⟩⟩
    · rw [convert_units_in_cell_float, process_cell_float,
        convert_numeric_below _ _ _ _ h]
      exact ⟨rfl, rfl⟩
    · obtain ⟨z, hz⟩ := hz
      rw [hfac] at hz
      refine ⟨z, by rw [hfac]; exact hz, ?_, ?_⟩
      · rw [convert_units_in_cell_float]
        exact convert_numeric_to_int _ _ _ _ z h hz
      · rw [process_cell_float]
        exact convert_numeric_to_int _ _ _ _ z h hz
    · rw [hfac] at hnz
      obtain ⟨heq, hrat⟩ := convert_numeric_to_round (PyVal.float m) m t (factorExp u) h hnz
      refine ⟨decRound2 (divPow10 m (factorExp u)), ?_, ?_, ?_⟩
      · rw [hrat, hfac]
      · rw [convert_units_in_cell_float, heq]
      · rw [process_cell_float, heq]


theorem c1_converter_contract_witness :
    convert_units_in_cell (PyVal.float ⟨150000, 0⟩) CUnit.Lakhs ⟨20, 0⟩
        = PyVal.float ⟨150, 2⟩ ∧
    process_cell (PyVal.float ⟨150000, 0⟩) CUnit.Lakhs ⟨20, 0⟩ = PyVal.float ⟨150, 2⟩ ∧
    (Dec.mk 150 2).toRat
      = ((roundHalfEven ((Dec.mk 150000 0).toRat / factorRat CUnit.Lakhs * 100) : ℤ) : ℚ)
          / 100 := by
  have hgt : (Dec.mk 20 0).toRat < |(Dec.mk 150000 0).toRat| := by
    norm_num [Dec.toRat]
  have hnz : ∀ z : ℤ, (Dec.mk 150000 0).toRat / factorRat CUnit.Lakhs ≠ (z : ℚ) := by
    intro z hz
    rw [show (Dec.mk 150000 0).toRat / factorRat CUnit.Lakhs = 3 / 2 by
      norm_num [Dec.toRat, factorRat, factorExp]] at hz
    have h2 : (2 : ℚ) * (z : ℚ) = 3 := by
      rw [← hz]; ring
    have h3 : (2 : ℤ) * z = 3 := by exact_mod_cast h2
    omega
  obtain ⟨r, hr, hc, hp⟩ :=
    ((c1_converter_contract (PyVal.float ⟨150000, 0⟩) ⟨150000, 0⟩ ⟨20, 0⟩ CUnit.Lakhs
      rfl).2 hgt).2 hnz
  have hr2 : r = ⟨150, 2⟩ := by
    have hcc : convert_units_in_cell (PyVal.float ⟨150000, 0⟩) CUnit.Lakhs ⟨20, 0⟩
        = PyVal.float ⟨150, 2⟩ := by decide
    have := hc.symm.trans hcc
    simpa using this
  subst hr2
  exact ⟨hc, hp, hr⟩

/-- C2: the scenario the specification requires (unit Lakhs, factor 100000,
threshold 20, input cell "1,50,000" giving 1.5) fails on the code: both
conversion functions return the cell unchanged.  The extraction regex runs
on the comma-stripped text and splits "150000" into 150 and 000, and the
replacement step searches the original text for `str(150.0) = "150.0"`,
which does not occur, so nothing is substituted. -/
theorem c2_comma_grouped_cell_unchanged :
    convert_units_in_cell (PyVal.str "1,50,000") CUnit.Lakhs ⟨20, 0⟩
        = PyVal.str "1,50,000" ∧
    process_cell (PyVal.str "1,50,000") CUnit.Lakhs ⟨20, 0⟩ = PyVal.str "1,50,000" ∧
    extract_numbers "1,50,000" = some [⟨150, 0⟩, ⟨0, 0⟩] := by
  exact ⟨by decide, by decide, by decide⟩

/-- C3: the scenario input "Closing balance as at 31.03.2025 is 1,50,000"
is flagged non-monetary by the classifier (both the "as at <date>" pattern
and the date-phrase rule match), so the rewrite returns the whole cell
verbatim instead of the claimed "Closing balance as at 31.03.2025 is 1.5". -/
theorem c3_closing_balance_preserved_whole :
    is_non_monetary_content
        (PyVal.str "Closing balance as at 31.03.2025 is 1,50,000") = true ∧
    convert_units_in_cell (PyVal.str "Closing balance as at 31.03.2025 is 1,50,000")
        CUnit.Lakhs ⟨20, 0⟩
      = PyVal.str "Closing balance as at 31.03.2025 is 1,50,000" := by
  exact ⟨by decide, by decide⟩

/-- C4: a formula cell ("=A1+A2", computed value 75000000) is not
preserved: `create_preserve_excel` processes the computed value and writes
the converted number back over the cell of the formula workbook, so the
stored formula text is replaced by the float 7.5 (unit Crore). -/
theorem c4_formula_text_overwritten :
    create_preserve_excel_cell (some (PyVal.str "=A1+A2")) (some (PyVal.int 75000000))
        CUnit.Crore ⟨20, 0⟩ = some (PyVal.float ⟨750, 2⟩) ∧
    some (PyVal.float ⟨750, 2⟩) ≠ some (PyVal.str "=A1+A2") := by
  exact ⟨by decide, by decide⟩

/-- C5: the classifier on the four specification examples: "2025",
"FY2025" and "31.03.2025" are non-monetary, the comma-grouped "1,50,000"
stays monetary-eligible. -/
theorem c5_classifier_examples :
    is_non_monetary_content (PyVal.str "2025") = true ∧
    is_non_monetary_content (PyVal.str "FY2025") = true ∧
    is_non_monetary_content (PyVal.str "31.03.2025") = true ∧
    is_non_monetary_content (PyVal.str "1,50,000") = false := by
  exact ⟨by decide, by decide, by decide, by decide⟩

/-- C9: the batch operation never fails and processes cells positionally:
its output has one entry per input cell, and each entry is the value of the
`try:` body when that body returns normally and the original cell value
when it raises (`cell_try` = `Option.none`), exactly the `except` clause of
`process_cell_batch`. -/
theorem c9_per_cell_exception_preserved (vals : List PyVal) (u : CUnit) (t : Dec) :
    (process_cell_batch vals u t).length = vals.length ∧
    process_cell_batch vals u t = vals.map fun v => (cell_try v u t).getD v := by
  induction vals with
  | nil => exact ⟨rfl, rfl⟩
  | cons v rest ih =>
    constructor
    · simp only [process_cell_batch, List.length_cons, List.length_map] at ih ⊢
      omega
    · simp only [process_cell_batch, List.map_cons]
      rw [ih.2]
      cases h : cell_try v u t <;> simp [h]

/-- C10: the classifier returns `false` (monetary-eligible) for every
non-string input and for every empty or whitespace-only string, without
signalling the empty case distinctly (it is total, so it never raises). -/
theorem c10_blank_and_non_string_false :
    (∀ v : PyVal, isStrVal v = false → is_non_monetary_content v = false) ∧
    (∀ s : String, pyStrip s.toList = [] → is_non_monetary_content (PyVal.str s) = false) := by
  constructor
  · intro v hv
    cases v with
    | str s => simp [isStrVal] at hv
    | int n => rfl
    | float d => rfl
    | pynone => rfl
    | obj => rfl
  · intro s hs
    show is_non_monetary_content_str s.toList = false
    rw [is_non_monetary_content_str, if_pos hs]

theorem c10_blank_and_non_string_false_witness :
    is_non_monetary_content (PyVal.int 7) = false ∧
    is_non_monetary_content (PyVal.str "   ") = false :=
  ⟨c10_blank_and_non_string_false.1 (PyVal.int 7) rfl,
   c10_blank_and_non_string_false.2 "   " (by decide)⟩


/-! ## Classifier structure lemmas -/

theorem isWSChar_false_of_isDigit (c : Char) (h : c.isDigit = true) :
    isWSChar c = false := by
  by_contra hw
  rw [Bool.not_eq_false] at hw
  simp only [isWSChar, Bool.or_eq_true, beq_iff_eq] at hw
  rcases hw with ((((h1 | h1) | h1) | h1) | h1) | h1 <;> subst h1 <;>
    exact absurd h (by decide)

theorem pyStrip_ne_nil_of_mem (l : List Char) (c : Char) (hc : c ∈ l)
    (hw : isWSChar c = false) : pyStrip l ≠ [] := by
  intro h
  rw [pyStrip, List.reverse_eq_nil_iff, List.dropWhile_eq_nil_iff] at h
  have hc2 : c ∈ l.dropWhile isWSChar := by
    have hsplit := List.takeWhile_append_dropWhile (p := isWSChar) (l := l)
    rw [← hsplit] at hc
    rcases List.mem_append.mp hc with h1 | h1
    · have := List.mem_takeWhile_imp h1
      rw [hw] at this
      exact absurd this (by simp)
    · exact h1
  have := h c (List.mem_reverse.mpr hc2)
  rw [hw] at this
  exact absurd this (by simp)

theorem litCI_cons_inv (c : Char) (pr s : List Char) (k : List Char → Bool)
    (h : litCI (c :: pr) s k = true) :
    ∃ x xr, s = x :: xr ∧ (x == c || x == c.toUpper) = true ∧ litCI pr xr k = true := by
  cases s with
  | nil => exact absurd h (by simp [litCI])
  | cons x xr =>
    rw [litCI, Bool.and_eq_true] at h
    exact ⟨x, xr, rfl, h.1, h.2⟩

theorem digitsExactly_succ_inv (n : Nat) (s : List Char) (k : List Char → Bool)
    (h : digitsExactly (n + 1) s k = true) :
    ∃ c r, s = c :: r ∧ c.isDigit = true ∧ digitsExactly n r k = true := by
  cases s with
  | nil => exact absurd h (by simp [digitsExactly])
  | cons c r =>
    rw [digitsExactly, Bool.and_eq_true] at h
    exact ⟨c, r, rfl, h.1, h.2⟩

theorem classifier_true_of_finYear (l : List Char) (h1 : pyStrip l ≠ [])
    (h2 : patFinYear l = true) : is_non_monetary_content_str l = true := by
  rw [is_non_monetary_content_str, if_neg h1]
  by_cases e1 : startsWithEq l = true
  · rw [if_pos e1]
  · rw [if_neg e1]
    by_cases e2 : patBareYear l = true
    · rw [if_pos e2]
    · rw [if_neg e2, if_pos h2]

theorem classifier_true_of_phrase (l : List Char) (h1 : pyStrip l ≠ [])
    (h2 : simpleNumberPat l = false) (h3 : datePhraseRule l = true) :
    is_non_monetary_content_str l = true := by
  rw [is_non_monetary_content_str, if_neg h1]
  by_cases e1 : startsWithEq l = true
  · rw [if_pos e1]
  · rw [if_neg e1]
    by_cases e2 : patBareYear l = true
    · rw [if_pos e2]
    · rw [if_neg e2]
      by_cases e3 : patFinYear l = true
      · rw [if_pos e3]
      · rw [if_neg e3, if_neg (by simp [h2] : ¬ simpleNumberPat l = true)]
        by_cases e4 : datePatternsAny l = true
        · rw [if_pos e4]
        · rw [if_neg e4, if_pos h3]

theorem fy_two_digit_case (f y a b c d : Char) (hf : f = 'F' ∨ f = 'f')
    (hy : y = 'Y' ∨ y = 'y') (ha : a.isDigit = true) (hb : b.isDigit = true)
    (hc : c.isDigit = true) (hd : d.isDigit = true) :
    is_non_monetary_content_str [f, y, a, b, '-', c, d] = true := by
  have hwf : isWSChar f = false := by rcases hf with rfl | rfl <;> decide
  have hwd : isWSChar d = false := isWSChar_false_of_isDigit d hd
  have hlow_f : f.toLower = 'f' := by rcases hf with rfl | rfl <;> decide
  have hlow_y : y.toLower = 'y' := by rcases hy with rfl | rfl <;> decide
  have hstrip : pyStrip [f, y, a, b, '-', c, d] = [f, y, a, b, '-', c, d] := by
    rw [pyStrip, List.dropWhile_cons, if_neg (by simp [hwf])]
    rw [show [f, y, a, b, '-', c, d].reverse = [d, c, '-', b, a, y, f] from by simp]
    rw [List.dropWhile_cons, if_neg (by simp [hwd])]
    simp
  have hne : pyStrip [f, y, a, b, '-', c, d] ≠ [] := by
    rw [hstrip]
    simp
  have hfd : f.isDigit = false := by rcases hf with rfl | rfl <;> decide
  have hfm : (f == '-') = false := by rcases hf with rfl | rfl <;> decide
  have hsimple : simpleNumberPat [f, y, a, b, '-', c, d] = false := by
    rw [simpleNumberPat, if_neg (by simp [hfm])]
    simp [simpleCore, List.takeWhile_cons, hfd]
  have hphrase : datePhraseRule [f, y, a, b, '-', c, d] = true := by
    rw [datePhraseRule, Bool.and_eq_true]
    constructor
    · apply List.any_eq_true.mpr
      refine ⟨['f', 'y'], by decide, ?_⟩
      rw [pyLowerStrip, hstrip]
      simp only [List.map_cons]
      rw [hlow_f, hlow_y, containsSub, Bool.or_eq_true]
      left
      simp [List.isPrefixOf]
    · apply List.any_eq_true.mpr
      exact ⟨a, by simp, ha⟩
  exact classifier_true_of_phrase _ hne hsimple hphrase

/-- C6 counterexample: "2024-2025" matches the claimed financial-year
pattern `\d{4}-\d{4}` but the classifier returns `false` for it (the
anchored rule of line 44 only accepts `FY\d{4}` and `\d{4}-\d{2}`, and no
other rule matches). -/
theorem c6_counterexample :
    patD4D4 "2024-2025".toList = true ∧
    is_non_monetary_content (PyVal.str "2024-2025") = false := by
  exact ⟨by decide, by decide⟩

/-- Shape inversion for the spec-side pattern `FY\d{2}-\d{2}`. -/
theorem patFY2D2_shape (l : List Char) (h : patFY2D2 l = true) :
    ∃ f y a b c d : Char, l = [f, y, a, b, '-', c, d] ∧ (f = 'F' ∨ f = 'f') ∧
      (y = 'Y' ∨ y = 'y') ∧ a.isDigit = true ∧ b.isDigit = true ∧
      c.isDigit = true ∧ d.isDigit = true := by
  cases l with
  | nil => exact absurd h (by simp [patFY2D2])
  | cons f l1 =>
  cases l1 with
  | nil => exact absurd h (by simp [patFY2D2])
  | cons y l2 =>
  cases l2 with
  | nil => exact absurd h (by simp [patFY2D2])
  | cons a l3 =>
  cases l3 with
  | nil => exact absurd h (by simp [patFY2D2])
  | cons b l4 =>
  cases l4 with
  | nil => exact absurd h (by simp [patFY2D2])
  | cons hh l5 =>
  cases l5 with
  | nil => exact absurd h (by simp [patFY2D2])
  | cons c l6 =>
  cases l6 with
  | nil => exact absurd h (by simp [patFY2D2])
  | cons d l7 =>
  cases l7 with
  | cons e8 rest => exact absurd h (by simp [patFY2D2])
  | nil =>
    simp only [patFY2D2, Bool.and_eq_true, Bool.or_eq_true, beq_iff_eq] at h
    obtain ⟨⟨⟨⟨⟨⟨hf, hy⟩, ha⟩, hb⟩, hhh⟩, hc⟩, hd⟩ := h
    subst hhh
    exact ⟨f, y, a, b, c, d, rfl, hf, hy, ha, hb, hc, hd⟩

/-- C6 (amended): every string matching `FY\d{4}`, `\d{4}-\d{2}` or
`FY\d{2}-\d{2}` (anchored, case insensitive) is classified non-monetary —
the first two through the financial-year rule of line 44, the third through
the date-phrase rule ("fy" substring plus a digit); `\d{4}-\d{4}` strings
are not covered (see the counterexample). -/
theorem c6_financial_year_patterns_amended (s : String)
    (h : (patFY4 s.toList || patD4D2 s.toList || patFY2D2 s.toList) = true) :
    is_non_monetary_content (PyVal.str s) = true := by
  show is_non_monetary_content_str s.toList = true
  simp only [Bool.or_eq_true] at h
  rcases h with (h1 | h2) | h3
  · obtain ⟨x, xr, hx, hxc, _⟩ := litCI_cons_inv 'f' _ _ _ h1
    have hwx : isWSChar x = false := by
      simp only [Bool.or_eq_true, beq_iff_eq] at hxc
      rcases hxc with hcc | hcc <;> subst hcc <;> decide
    refine classifier_true_of_finYear _
      (pyStrip_ne_nil_of_mem _ x (by rw [hx]; exact List.mem_cons_self _ _) hwx) ?_
    rw [patFinYear, h1]
    rfl
  · obtain ⟨x, xr, hx, hxd, _⟩ := digitsExactly_succ_inv 3 _ _ h2
    refine classifier_true_of_finYear _
      (pyStrip_ne_nil_of_mem _ x (by rw [hx]; exact List.mem_cons_self _ _)
        (isWSChar_false_of_isDigit x hxd)) ?_
    rw [patFinYear, h2]
    simp
  · obtain ⟨f, y, a, b, c, d, hL, hf, hy, ha, hb, hc, hd⟩ := patFY2D2_shape _ h3
    rw [hL]
    exact fy_two_digit_case f y a b c d hf hy ha hb hc hd

theorem c6_financial_year_patterns_amended_witness :
    (patFY4 "FY24-25".toList || patD4D2 "FY24-25".toList ||
      patFY2D2 "FY24-25".toList) = true ∧
    is_non_monetary_content (PyVal.str "FY24-25") = true :=
  ⟨by decide, c6_financial_year_patterns_amended "FY24-25" (by decide)⟩


/-! ## Bounds on extracted numbers (the extraction regex caps magnitudes) -/

theorem digit_char_bounds (c : Char) (h : c.isDigit = true) :
    48 ≤ c.toNat ∧ c.toNat ≤ 57 := by
  simp only [Char.isDigit, Bool.and_eq_true, decide_eq_true_eq] at h
  exact ⟨h.1, h.2⟩

theorem natOfDigits_aux_lt (l : List Char) (h : ∀ c ∈ l, c.isDigit = true) :
    ∀ a : Nat, l.foldl (fun a c => 10 * a + (c.toNat - 48)) a < (a + 1) * 10 ^ l.length := by
  induction l with
  | nil => intro a; simp
  | cons c r ih =>
    intro a
    have hc : c.toNat - 48 ≤ 9 := by
      have := digit_char_bounds c (h c (List.mem_cons_self _ _))
      omega
    have hrec := ih (fun x hx => h x (List.mem_cons_of_mem _ hx)) (10 * a + (c.toNat - 48))
    calc (c :: r).foldl (fun a c => 10 * a + (c.toNat - 48)) a
        = r.foldl (fun a c => 10 * a + (c.toNat - 48)) (10 * a + (c.toNat - 48)) := rfl
      _ < (10 * a + (c.toNat - 48) + 1) * 10 ^ r.length := hrec
      _ ≤ (10 * (a + 1)) * 10 ^ r.length := Nat.mul_le_mul_right _ (by omega)
      _ = (a + 1) * 10 ^ (c :: r).length := by
          rw [List.length_cons, pow_succ]
          ring

theorem natOfDigits_lt (l : List Char) (h : ∀ c ∈ l, c.isDigit = true) :
    natOfDigits l < 10 ^ l.length := by
  have := natOfDigits_aux_lt l h 0
  simpa [natOfDigits] using this

theorem takeWhile_append_all (p : Char → Bool) (l1 l2 : List Char)
    (h : ∀ c ∈ l1, p c = true) :
    (l1 ++ l2).takeWhile p = l1 ++ l2.takeWhile p := by
  induction l1 with
  | nil => simp
  | cons c r ih =>
    rw [List.cons_append, List.takeWhile_cons, h c (List.mem_cons_self _ _)]
    rw [ih (fun x hx => h x (List.mem_cons_of_mem _ hx))]
    rfl

theorem commaGroupsScan_no_comma (f : Nat) (s : List Char)
    (h : ∀ c ∈ s, (c == ',') = false) : commaGroupsScan f s = ([], s) := by
  cases f with
  | zero => rfl
  | succ f =>
    cases s with
    | nil => rfl
    | cons c rest =>
      rw [commaGroupsScan, if_neg (by simp [h c (List.mem_cons_self c rest)])]

theorem fracScan_cases (s : List Char) :
    fracScan s = ([], s) ∨
    ∃ fd r2, fracScan s = ('.' :: fd, r2) ∧ fd ≠ [] ∧ fd.length ≤ 2 ∧
      (∀ c ∈ fd, c.isDigit = true) ∧ r2 ⊆ s := by
  cases s with
  | nil => left; rfl
  | cons c rest =>
    by_cases hc : (c == '.') = true
    · have hc' := beq_iff_eq.mp hc
      subst hc'
      rw [fracScan, if_pos hc]
      by_cases he : ((rest.takeWhile Char.isDigit).take 2).isEmpty = true
      · rw [if_pos he]
        left
        rfl
      · rw [if_neg he]
        right
        refine ⟨(rest.takeWhile Char.isDigit).take 2, _, rfl, ?_, ?_, ?_, ?_⟩
        · intro hnil
          rw [hnil] at he
          exact he rfl
        · rw [List.length_take]
          exact Nat.min_le_left _ _
        · intro x hx
          exact List.mem_takeWhile_imp (List.take_subset _ _ hx)
        · exact (List.drop_subset _ _).trans (List.subset_cons_self _ _)
    · rw [fracScan, if_neg hc]
      left
      rfl

theorem scanUnsigned_small (s tok r : List Char) (hnc : ∀ c ∈ s, (c == ',') = false)
    (h : scanUnsigned s = some (tok, r)) :
    (∃ c0 t1, tok = c0 :: t1 ∧ c0.isDigit = true) ∧
    (∃ d : Dec, pyFloatOfTokenPos tok = some d ∧ d.mant.natAbs < 1000 * 10 ^ d.exp) ∧
    r ⊆ s := by
  rw [scanUnsigned] at h
  by_cases he : ((s.takeWhile Char.isDigit).take 3).isEmpty = true
  · rw [if_pos he] at h
    exact absurd h (by simp)
  · rw [if_neg he] at h
    simp only [] at h
    have hcg : commaGroupsScan ((s.drop ((s.takeWhile Char.isDigit).take 3).length).length)
        (s.drop ((s.takeWhile Char.isDigit).take 3).length)
        = ([], s.drop ((s.takeWhile Char.isDigit).take 3).length) :=
      commaGroupsScan_no_comma _ _ (fun c hc => hnc c (List.drop_subset _ _ hc))
    rw [hcg] at h
    set d1 := (s.takeWhile Char.isDigit).take 3 with hd1def
    have hd1ne : d1 ≠ [] := fun hnil => he (by rw [hnil] ; rfl)
    have hd1len : d1.length ≤ 3 := by
      rw [hd1def, List.length_take]
      exact Nat.min_le_left _ _
    have hd1dig : ∀ c ∈ d1, c.isDigit = true := fun c hc =>
      List.mem_takeWhile_imp (List.take_subset _ _ hc)
    rcases fracScan_cases (s.drop d1.length) with hfs | ⟨fd, r2, hfs, hfdne, hfdlen, hfddig, hr2⟩
    · rw [hfs] at h
      simp only [List.append_nil, Option.some.injEq, Prod.mk.injEq] at h
      obtain ⟨htok, hr⟩ := h
      obtain ⟨c0, t1, hc0⟩ : ∃ c0 t1, d1 = c0 :: t1 := by
        cases hx : d1 with
        | nil => exact absurd hx hd1ne
        | cons a b => exact ⟨a, b, rfl⟩
      constructor
      · exact ⟨c0, t1, by rw [← htok, hc0], hd1dig c0 (by rw [hc0]; exact List.mem_cons_self _ _)⟩
      constructor
      · refine ⟨⟨(natOfDigits d1 : Int), 0⟩, ?_, ?_⟩
        · rw [← htok, pyFloatOfTokenPos]
          rw [show d1.takeWhile Char.isDigit = d1 from by
            have := takeWhile_append_all Char.isDigit d1 [] hd1dig
            simpa using this]
          rw [List.drop_length]
          rw [if_pos (by rfl)]
          rw [if_neg (by simp [hd1ne])]
        · have hb := natOfDigits_lt d1 hd1dig
          have hle : (10 : Nat) ^ d1.length ≤ 10 ^ 3 :=
            Nat.pow_le_pow_right (by norm_num) hd1len
          simp only [Int.natAbs_ofNat, pow_zero, Nat.mul_one]
          omega
      · rw [← hr]
        exact List.drop_subset _ _
    · rw [hfs] at h
      simp only [Option.some.injEq, Prod.mk.injEq] at h
      obtain ⟨htok, hr⟩ := h
      have hip : (d1 ++ [] ++ '.' :: fd).takeWhile Char.isDigit = d1 := by
        rw [List.append_nil, takeWhile_append_all Char.isDigit d1 ('.' :: fd) hd1dig,
          List.takeWhile_cons]
        simp
      obtain ⟨c0, t1, hc0⟩ : ∃ c0 t1, d1 = c0 :: t1 := by
        cases hx : d1 with
        | nil => exact absurd hx hd1ne
        | cons a b => exact ⟨a, b, rfl⟩
      constructor
      · refine ⟨c0, t1 ++ [] ++ '.' :: fd, ?_, hd1dig c0 (by rw [hc0]; exact List.mem_cons_self _ _)⟩
        rw [← htok, hc0]
        simp
      constructor
      · refine ⟨⟨(natOfDigits d1 * 10 ^ fd.length + natOfDigits fd : Nat), fd.length⟩, ?_, ?_⟩
        · have hdrop : (d1 ++ [] ++ '.' :: fd).drop d1.length = '.' :: fd := by
            rw [List.append_nil]
            exact List.drop_left d1 ('.' :: fd)
          rw [← htok, pyFloatOfTokenPos]
          rw [hip, hdrop]
          rw [if_neg (by simp)]
          rw [if_pos (by simp)]
          rw [if_pos (by
            simp only [List.drop_one, List.tail_cons, Bool.and_eq_true, Bool.not_eq_true,
              List.all_eq_true]
            exact ⟨by simp [List.isEmpty_iff, hfdne], hfddig⟩)]
          simp
        · have hb1 : natOfDigits d1 ≤ 999 := by
            have hb := natOfDigits_lt d1 hd1dig
            have hle : (10 : Nat) ^ d1.length ≤ 10 ^ 3 :=
              Nat.pow_le_pow_right (by norm_num) hd1len
            omega
          have hb2 : natOfDigits fd < 10 ^ fd.length := natOfDigits_lt fd hfddig
          simp only [Int.natAbs_ofNat]
          calc natOfDigits d1 * 10 ^ fd.length + natOfDigits fd
              < natOfDigits d1 * 10 ^ fd.length + 10 ^ fd.length := by omega
            _ = (natOfDigits d1 + 1) * 10 ^ fd.length := by ring
            _ ≤ 1000 * 10 ^ fd.length := Nat.mul_le_mul_right _ (by omega)
      · rw [← hr]
        exact hr2.trans (List.drop_subset _ _)

theorem digit_ne_dash (c : Char) (h : c.isDigit = true) : (c == '-') = false := by
  by_cases hc : (c == '-') = true
  · have := beq_iff_eq.mp hc
    subst this
    exact absurd h (by decide)
  · simpa using hc

theorem scanTokenAt_small (s tok r : List Char) (hnc : ∀ c ∈ s, (c == ',') = false)
    (h : scanTokenAt s = some (tok, r)) :
    (∃ d : Dec, pyFloatOfToken tok = some d ∧ d.mant.natAbs < 1000 * 10 ^ d.exp) ∧
    r ⊆ s := by
  cases s with
  | nil => exact absurd h (by simp [scanTokenAt])
  | cons c rest =>
    rw [scanTokenAt] at h
    by_cases hdash : (c == '-') = true
    · rw [if_pos hdash] at h
      cases hsu : scanUnsigned rest with
      | none => rw [hsu] at h; exact absurd h (by simp)
      | some pr =>
        obtain ⟨tok0, r0⟩ := pr
        rw [hsu] at h
        simp only [Option.some.injEq, Prod.mk.injEq] at h
        obtain ⟨htok, hr⟩ := h
        obtain ⟨_, ⟨d0, hd0, hb0⟩, hsub⟩ :=
          scanUnsigned_small rest tok0 r0
            (fun x hx => hnc x (List.mem_cons_of_mem _ hx)) hsu
        constructor
        · refine ⟨⟨-d0.mant, d0.exp⟩, ?_, ?_⟩
          · rw [← htok, pyFloatOfToken, if_pos (by rfl), hd0]
            rfl
          · simpa using hb0
        · rw [← hr]
          exact hsub.trans (List.subset_cons_self _ _)
    · rw [if_neg hdash] at h
      obtain ⟨⟨c0, t1, hc0, hc0d⟩, ⟨d0, hd0, hb0⟩, hsub⟩ :=
        scanUnsigned_small (c :: rest) tok r hnc h
      constructor
      · refine ⟨d0, ?_, hb0⟩
        rw [hc0, pyFloatOfToken, if_neg (by simp [digit_ne_dash c0 hc0d]), ← hc0]
        exact hd0
      · exact hsub

theorem findallAux_small (f : Nat) (l : List Char) (hnc : ∀ c ∈ l, (c == ',') = false) :
    ∀ tok ∈ findallAux f l, ∃ d : Dec, pyFloatOfToken tok = some d ∧
      d.mant.natAbs < 1000 * 10 ^ d.exp := by
  induction f generalizing l with
  | zero => intro tok htok; simp [findallAux] at htok
  | succ f ih =>
    intro tok htok
    cases l with
    | nil => simp [findallAux] at htok
    | cons c rest =>
      rw [findallAux] at htok
      cases hscan : scanTokenAt (c :: rest) with
      | none =>
        rw [hscan] at htok
        exact ih rest (fun x hx => hnc x (List.mem_cons_of_mem _ hx)) tok htok
      | some pr =>
        obtain ⟨tok0, r0⟩ := pr
        rw [hscan] at htok
        obtain ⟨⟨d, hd, hb⟩, hsub⟩ := scanTokenAt_small _ _ _ hnc hscan
        rcases List.mem_cons.mp htok with rfl | hmem
        · exact ⟨d, hd, hb⟩
        · exact ih r0 (fun x hx => hnc x (hsub hx)) tok hmem

theorem floatListOfTokens_mem (ts : List (List Char)) (ds : List Dec)
    (h : floatListOfTokens ts = some ds) :
    ∀ d ∈ ds, ∃ t ∈ ts, pyFloatOfToken t = some d := by
  induction ts generalizing ds with
  | nil =>
    simp only [floatListOfTokens, Option.some.injEq] at h
    subst h
    intro d hd
    simp at hd
  | cons t ts ih =>
    rw [floatListOfTokens] at h
    cases h1 : pyFloatOfToken t with
    | none => rw [h1] at h; exact absurd h (by simp)
    | some d0 =>
      cases h2 : floatListOfTokens ts with
      | none => rw [h1, h2] at h; exact absurd h (by simp)
      | some ds0 =>
        rw [h1, h2] at h
        simp only [Option.some.injEq] at h
        subst h
        intro d hd
        rcases List.mem_cons.mp hd with rfl | hmem
        · exact ⟨t, List.mem_cons_self _ _, h1⟩
        · obtain ⟨t2, ht2, ht2d⟩ := ih ds0 h2 d hmem
          exact ⟨t2, List.mem_cons_of_mem _ ht2, ht2d⟩


theorem extract_numbers_small (s : String) (nums : List Dec)
    (h : extract_numbers s = some nums) :
    ∀ d ∈ nums, d.mant.natAbs < 1000 * 10 ^ d.exp := by
  rw [extract_numbers] at h
  intro d hd
  obtain ⟨t, ht, htd⟩ := floatListOfTokens_mem _ _ h d hd
  rw [find_all_numbers] at ht
  have hnc : ∀ c ∈ s.toList.filter (fun c => !(c == ',')), (c == ',') = false := by
    intro c hc
    have h2 := (List.mem_filter.mp hc).2
    simpa using h2
  obtain ⟨d2, hd2, hb2⟩ := findallAux_small _ _ hnc t ht
  rw [htd] at hd2
  simp only [Option.some.injEq] at hd2
  rw [hd2]
  exact hb2

/-- C7: the three-numbers-as-date guard of lines 186/266 is dead code: the
extraction regex takes at most three integer digits per match from the
comma-stripped text, so every extracted number has magnitude below 1000 and
the condition `numbers[2] > 1900` can never hold.  On the canonical date
string "31 03 2025" the extraction yields the four numbers 31, 3, 202, 5
(the year is split), the guard does not fire, and the cell enters the
conversion path instead of being recognised as a date. -/
theorem c7_date_guard_unreachable :
    (extract_numbers "31 03 2025" = some [⟨31, 0⟩, ⟨3, 0⟩, ⟨202, 0⟩, ⟨5, 0⟩] ∧
      is_date_triple [⟨31, 0⟩, ⟨3, 0⟩, ⟨202, 0⟩, ⟨5, 0⟩] = false) ∧
    (∀ (s : String) (nums : List Dec), extract_numbers s = some nums →
      is_date_triple nums = false) := by
  refine ⟨⟨by decide, by decide⟩, ?_⟩
  intro s nums h
  have hball := extract_numbers_small s nums h
  rw [is_date_triple]
  rcases nums with _ | ⟨a, _ | ⟨b, _ | ⟨c, _ | ⟨e, rest⟩⟩⟩⟩
  · simp
  · simp
  · simp
  · have hc := hball c (by simp)
    have hlt : decLt ⟨1900, 0⟩ c = false := by
      rw [decLt, decide_eq_false_iff_not]
      intro hcon
      have hpow : (0 : ℤ) < 10 ^ c.exp := by positivity
      have h1 : (c.mant.natAbs : ℤ) < 1000 * 10 ^ c.exp := by exact_mod_cast hc
      have h2 : c.mant ≤ (c.mant.natAbs : ℤ) := Int.le_natAbs
      rw [pow_zero, mul_one] at hcon
      have hcon2 : (1900 : ℤ) * 10 ^ c.exp < c.mant := hcon
      linarith
    simp [hlt, List.getD]
  · have hne : (a :: b :: c :: e :: rest).length ≠ 3 := by
      simp
    have hb3 : ((a :: b :: c :: e :: rest).length == 3) = false := by
      rw [beq_eq_false_iff_ne]
      exact hne
    simp [hb3]

theorem c7_date_guard_unreachable_witness :
    is_date_triple [⟨31, 0⟩, ⟨3, 0⟩, ⟨202, 0⟩, ⟨5, 0⟩] = false :=
  c7_date_guard_unreachable.2 "31 03 2025" [⟨31, 0⟩, ⟨3, 0⟩, ⟨202, 0⟩, ⟨5, 0⟩]
    (by decide)


/-! ## Annotator lemmas -/

theorem toRat_exp_zero (n : Int) : (Dec.mk n 0).toRat = (n : ℚ) := by
  rw [Dec.toRat]
  norm_num

theorem decValRat_int (n : Int) : decValRat (PyVal.int n) = (n : ℚ) := by
  rw [decValRat]
  simp only [numDecOf]
  exact toRat_exp_zero n

theorem decValRat_float (d : Dec) : decValRat (PyVal.float d) = d.toRat := rfl

theorem decRound2_exp (d : Dec) : (decRound2 d).exp = 2 := by
  rw [decRound2]
  split <;> rfl

theorem rep2_iff (d : Dec) :
    decEqv d (decRound2 d) = true ↔ ∃ z : ℤ, d.toRat * 100 = (z : ℚ) := by
  constructor
  · intro h
    have he := (decEqv_iff _ _).mp h
    refine ⟨(decRound2 d).mant, ?_⟩
    rw [he]
    have h2 := decRound2_exp d
    rw [Dec.toRat, h2]
    rw [div_mul_eq_mul_div, div_eq_iff (by positivity : ((10 : ℚ)) ^ 2 ≠ 0)]
    norm_num
  · rintro ⟨z, hz⟩
    apply (decEqv_iff _ _).mpr
    rw [decRound2_toRat, hz, roundHalfEven_intCast]
    rw [eq_div_iff (by norm_num : (100 : ℚ) ≠ 0)]
    exact hz

theorem looksConverted_iff (v : PyVal) :
    looksConverted v = true ↔
      isNumericVal v = true ∧ |decValRat v| < 1000 ∧
        ∃ z : ℤ, decValRat v * 100 = (z : ℚ) := by
  cases v with
  | str s => simp [looksConverted, isNumericVal]
  | pynone => simp [looksConverted, isNumericVal]
  | obj => simp [looksConverted, isNumericVal]
  | int n =>
    simp only [looksConverted, isNumericVal, decValRat_int, true_and]
    rw [decAbsLt_iff, toRat_exp_zero, toRat_exp_zero]
    constructor
    · intro h
      exact ⟨by exact_mod_cast h, ⟨100 * n, by push_cast; ring⟩⟩
    · intro h
      exact_mod_cast h.1
  | float d =>
    simp only [looksConverted, isNumericVal, decValRat_float, true_and,
      Bool.and_eq_true]
    rw [decAbsLt_iff, toRat_exp_zero, rep2_iff]
    exact_mod_cast Iff.rfl

theorem unitLabel_ne_empty (u : CUnit) : unitLabel u ≠ "" := by
  cases u <;> decide

theorem add_unit_row_label_iff (col : List PyVal) (u : CUnit) :
    add_unit_row_label col u = unitLabel u ↔
      ∃ v ∈ (col.take 10).filter (fun x => !(x == PyVal.pynone)),
        isNumericVal v = true ∧ |decValRat v| < 1000 ∧
          ∃ z : ℤ, decValRat v * 100 = (z : ℚ) := by
  rw [add_unit_row_label]
  by_cases h : ((col.take 10).filter fun v => !(v == PyVal.pynone)).any looksConverted = true
  · rw [if_pos h]
    constructor
    · intro _
      obtain ⟨v, hv, hlc⟩ := List.any_eq_true.mp h
      exact ⟨v, hv, (looksConverted_iff v).mp hlc⟩
    · intro _
      rfl
  · rw [if_neg h]
    constructor
    · intro habs
      exact absurd habs.symm (unitLabel_ne_empty u)
    · rintro ⟨v, hv, hprops⟩
      exact absurd (List.any_eq_true.mpr ⟨v, hv, (looksConverted_iff v).mpr hprops⟩) h

theorem create_preserve_excel_label_iff (col : List PyVal) (u : CUnit) :
    create_preserve_excel_label col u = unitLabel u ↔
      ∃ v ∈ (col.drop 1).take 98, isNumericVal v = true := by
  rw [create_preserve_excel_label]
  by_cases h : ((col.drop 1).take 98).any isNumericVal = true
  · rw [if_pos h]
    constructor
    · intro _
      exact List.any_eq_true.mp h
    · intro _
      rfl
  · rw [if_neg h]
    constructor
    · intro habs
      exact absurd habs.symm (unitLabel_ne_empty u)
    · intro hex
      exact absurd (List.any_eq_true.mpr hex) h

theorem process_cell_str_is_str (s : String) (u : CUnit) (t : Dec) :
    ∃ s2, process_cell (PyVal.str s) u t = PyVal.str s2 := by
  simp only [process_cell, cell_try]
  by_cases h1 : is_non_monetary_content_str s.toList = true
  · rw [if_pos h1]
    exact ⟨s, rfl⟩
  · rw [if_neg h1]
    by_cases h2 : (find_all_numbers (s.toList.filter fun c => !(c == ','))).isEmpty = true
    · rw [if_pos h2]
      exact ⟨s, rfl⟩
    · rw [if_neg h2]
      cases h3 : floatListOfTokens (find_all_numbers (s.toList.filter fun c => !(c == ','))) with
      | none => exact ⟨s, rfl⟩
      | some nums =>
        dsimp only
        by_cases h4 : is_date_triple nums = true
        · rw [if_pos h4]
          exact ⟨s, rfl⟩
        · rw [if_neg h4]
          by_cases h5 : decGtAbs (maxByAbs nums) t = true
          · rw [if_pos h5]
            exact ⟨_, rfl⟩
          · rw [if_neg h5]
            exact ⟨s, rfl⟩

theorem process_cell_batch_mem (vals : List PyVal) (u : CUnit) (t : Dec) (v : PyVal)
    (hv : v ∈ process_cell_batch vals u t) : ∃ w ∈ vals, v = process_cell w u t := by
  induction vals with
  | nil => simp [process_cell_batch] at hv
  | cons w rest ih =>
    rw [process_cell_batch] at hv
    rcases List.mem_cons.mp hv with h | h
    · refine ⟨w, List.mem_cons_self _ _, ?_⟩
      rw [h, process_cell]
      cases hc : cell_try w u t <;> simp [hc]
    · obtain ⟨w2, hw2, he⟩ := ih h
      exact ⟨w2, List.mem_cons_of_mem _ hw2, he⟩

/-- C8 counterexample: under the Excel-path annotator, a column whose only
numeric value is 2500 (above 1000, so not "a rescaled numeric value of
magnitude below 1000") still receives the label "(in Lakhs)", refuting the
claimed "exactly when". -/
theorem c8_counterexample :
    create_preserve_excel_label [PyVal.str "Header", PyVal.int 2500] CUnit.Lakhs
        = "(in Lakhs)" ∧
    ([PyVal.str "Header", PyVal.int 2500].all fun v => !looksConverted v) = true := by
  exact ⟨by decide, by decide⟩

/-- C8 (amended): the PDF-path annotator `add_unit_row` labels a column
`"(in <Unit>)"` exactly when its first ten non-null values contain an
int/float of magnitude below 1000 exactly representable to two decimals;
the Excel-path annotation instead labels a column exactly when rows
2..min(max_row, 99) contain any int/float value, regardless of magnitude;
and in the PDF pipeline a column of processed string cells (in particular
an all-below-threshold text column) always receives the empty label. -/
theorem c8_annotators_amended :
    (∀ (col : List PyVal) (u : CUnit),
      add_unit_row_label col u = unitLabel u ↔
        ∃ v ∈ (col.take 10).filter (fun x => !(x == PyVal.pynone)),
          isNumericVal v = true ∧ |decValRat v| < 1000 ∧
            ∃ z : ℤ, decValRat v * 100 = (z : ℚ)) ∧
    (∀ (col : List PyVal) (u : CUnit),
      create_preserve_excel_label col u = unitLabel u ↔
        ∃ v ∈ (col.drop 1).take 98, isNumericVal v = true) ∧
    (∀ (ss : List String) (u : CUnit) (t : Dec),
      add_unit_row_label (process_cell_batch (ss.map PyVal.str) u t) u = "") := by
  refine ⟨add_unit_row_label_iff, create_preserve_excel_label_iff, ?_⟩
  intro ss u t
  have hncond : ¬ (((process_cell_batch (ss.map PyVal.str) u t).take 10).filter
      (fun v => !(v == PyVal.pynone))).any looksConverted = true := by
    intro hany
    obtain ⟨v, hv, hlc⟩ := List.any_eq_true.mp hany
    have hv2 : v ∈ process_cell_batch (ss.map PyVal.str) u t :=
      List.take_subset _ _ (List.mem_filter.mp hv).1
    obtain ⟨w, hw, he⟩ := process_cell_batch_mem _ _ _ _ hv2
    obtain ⟨s0, hs0mem, hs0⟩ := List.mem_map.mp hw
    obtain ⟨s2, hs2⟩ := process_cell_str_is_str s0 u t
    rw [he, ← hs0, hs2] at hlc
    simp [looksConverted] at hlc
  rw [add_unit_row_label, if_neg hncond]

theorem c8_annotators_amended_witness :
    add_unit_row_label [PyVal.int 5] CUnit.Lakhs = "(in Lakhs)" ∧
    create_preserve_excel_label [PyVal.pynone, PyVal.int 2500] CUnit.Lakhs
        = "(in Lakhs)" ∧
    add_unit_row_label (process_cell_batch (["5"].map PyVal.str) CUnit.Lakhs ⟨20, 0⟩)
        CUnit.Lakhs = "" := by
  refine ⟨?_, ?_, c8_annotators_amended.2.2 ["5"] CUnit.Lakhs ⟨20, 0⟩⟩
  · have h := (c8_annotators_amended.1 [PyVal.int 5] CUnit.Lakhs).mpr
      ⟨PyVal.int 5, by decide, rfl,
        by rw [decValRat_int]; norm_num,
        ⟨500, by rw [decValRat_int]; norm_num⟩⟩
    exact h.trans (by decide)
  · have h := (c8_annotators_amended.2.1 [PyVal.pynone, PyVal.int 2500] CUnit.Lakhs).mpr
      ⟨PyVal.int 2500, by decide, rfl⟩
    exact h.trans (by decide)

end BalanceSheet
